import Mathlib

/-!
Verification development for the SNI (Super Nintendo Interface) service.

This file gives a shallow embedding, in Lean 4, of the parts of the Go
source relevant to the frozen claims:

* `devices/snes/mapping/translate.go` — address-space translation;
* `devices/snes/drivers/emunwa/client.go` — the NWA protocol client
  (ASCII reply parser, `MultiReadMemory`, `FetchFields`,
  `determineDomainMapping`, `MemoryDomains`);
* `devices/snes/drivers/fxpakpro` — the static memory-domain table,
  `MultiDomainRead`/`MultiDomainWrite` range validation, and the `listFiles`
  response-header checks;
* `udpclient/udpclient.go` — the UDP client close/fail-fast state machine.

Go strings are modelled as `List Char`, byte slices as `List Nat`
(each element a byte value), machine integers as `Nat` with explicit
`% 2^32` where Go's `uint32` overflow semantics matter, and fallible
functions return `Except`.  Go maps whose iteration order is never
observed are modelled as association lists with insert-or-replace
update.  External I/O outcomes (socket reads, command replies) are
passed in as explicit oracle arguments.
-/

namespace Sni

/-! ## Address-space translation (`devices/snes/mapping/translate.go`) -/

/-- `sni.AddressSpace` protobuf enum. -/
inductive AddressSpace where
  | raw
  | fxPakPro
  | snesABus
deriving DecidableEq, Repr

/-- `sni.MemoryMapping` protobuf enum. -/
inductive MemoryMapping where
  | unknown
  | hiROM
  | loROM
  | exHiROM
  | sa1
deriving DecidableEq, Repr

/-- `devices.AddressTuple`. -/
structure AddressTuple where
  address : Nat
  space : AddressSpace
  mapping : MemoryMapping
deriving DecidableEq, Repr

/-- Result of `TranslateAddress`: either a device address or an error.
`unknownMapping` is the sentinel `ErrUnknownMapping`; `translator e`
is any error produced by one of the external per-mapping translation
functions (package `github.com/alttpo/snes/mapping/...`), which are
distinct values from `ErrUnknownMapping`. -/
inductive TranslateErr where
  | unknownMapping
  | translator (code : Nat)
deriving DecidableEq, Repr

/-- The eight external translation functions from
`github.com/alttpo/snes` that `TranslateAddress` dispatches to.  They
are outside this repository, so they are kept abstract: each is an
arbitrary function that yields a device address or its own error code. -/
structure MappingFns where
  loromPakToBus : Nat → Except Nat Nat
  hiromPakToBus : Nat → Except Nat Nat
  exhiromPakToBus : Nat → Except Nat Nat
  sa1romPakToBus : Nat → Except Nat Nat
  loromBusToPak : Nat → Except Nat Nat
  hiromBusToPak : Nat → Except Nat Nat
  exhiromBusToPak : Nat → Except Nat Nat
  sa1romBusToPak : Nat → Except Nat Nat

/-- Lift a translator result into the `TranslateAddress` error space. -/
def liftTr (r : Except Nat Nat) : Except TranslateErr Nat :=
  match r with
  | .ok v => .ok v
  | .error e => .error (.translator e)

/-- `mapping.TranslateAddress` (translate.go lines 15–65). -/
def translateAddress (fns : MappingFns) (sourceAddress : AddressTuple)
    (deviceSpace : AddressSpace) : Except TranslateErr Nat :=
  let address := sourceAddress.address
  match sourceAddress.space with
  | .raw => .ok address
  | .fxPakPro =>
    match deviceSpace with
    | .raw => .ok address
    | .fxPakPro => .ok address
    | .snesABus =>
      match sourceAddress.mapping with
      | .loROM => liftTr (fns.loromPakToBus address)
      | .hiROM => liftTr (fns.hiromPakToBus address)
      | .exHiROM => liftTr (fns.exhiromPakToBus address)
      | .sa1 => liftTr (fns.sa1romPakToBus address)
      | .unknown => .error .unknownMapping
  | .snesABus =>
    match deviceSpace with
    | .raw => .ok address
    | .snesABus => .ok address
    | .fxPakPro =>
      match sourceAddress.mapping with
      | .loROM => liftTr (fns.loromBusToPak address)
      | .hiROM => liftTr (fns.hiromBusToPak address)
      | .exHiROM => liftTr (fns.exhiromBusToPak address)
      | .sa1 => liftTr (fns.sa1romBusToPak address)
      | .unknown => .error .unknownMapping

theorem liftTr_ne_unknownMapping (r : Except Nat Nat) :
    liftTr r ≠ .error .unknownMapping := by
  cases r <;> simp [liftTr]

/-- C5: `TranslateAddress` fails with `ErrUnknownMapping` iff the source
and device spaces are `SnesABus` and `FxPakPro` in either direction and
the memory mapping is `Unknown`; and whenever the source space is `Raw`,
the device space is `Raw`, or the two spaces coincide, the input address
is returned unchanged with no error. -/
theorem translateAddress_unknownMapping_iff (fns : MappingFns)
    (src : AddressTuple) (dev : AddressSpace) :
    (translateAddress fns src dev = .error .unknownMapping ↔
      (src.mapping = .unknown ∧
        ((src.space = .snesABus ∧ dev = .fxPakPro) ∨
         (src.space = .fxPakPro ∧ dev = .snesABus)))) ∧
    ((src.space = .raw ∨ dev = .raw ∨ src.space = dev) →
      translateAddress fns src dev = .ok src.address) := by
  obtain ⟨a, s, m⟩ := src
  constructor
  · cases s <;> cases dev <;> cases m <;>
      simp [translateAddress, liftTr_ne_unknownMapping]
  · intro h
    cases s <;> cases dev <;>
      simp_all [translateAddress]

/-- Witness for C5 at concrete inputs: a `Raw`-source request passes
through unchanged, and a `SnesABus → FxPakPro` request with an `Unknown`
mapping fails with `ErrUnknownMapping`. -/
theorem translateAddress_unknownMapping_iff_witness :
    translateAddress
      ⟨fun a => .ok a, fun a => .ok a, fun a => .ok a, fun a => .ok a,
       fun a => .ok a, fun a => .ok a, fun a => .ok a, fun a => .ok a⟩
      ⟨0x7E0123, .raw, .unknown⟩ .fxPakPro = .ok 0x7E0123 ∧
    translateAddress
      ⟨fun a => .ok a, fun a => .ok a, fun a => .ok a, fun a => .ok a,
       fun a => .ok a, fun a => .ok a, fun a => .ok a, fun a => .ok a⟩
      ⟨0x7E0123, .snesABus, .unknown⟩ .fxPakPro = .error .unknownMapping := by
  constructor
  · exact (translateAddress_unknownMapping_iff _ ⟨0x7E0123, .raw, .unknown⟩
      .fxPakPro).2 (Or.inl rfl)
  · exact (translateAddress_unknownMapping_iff _ ⟨0x7E0123, .snesABus, .unknown⟩
      .fxPakPro).1.mpr ⟨rfl, Or.inl ⟨rfl, rfl⟩⟩

/-! ## FX Pak Pro static memory-domain table (fxpakpro `domains.go`) -/

/-- `sni.MemoryDomainTypeSNES` protobuf enum (the values used by the
fxpakpro driver). -/
inductive SnesDomainType where
  | coreSpecific
  | cartROM
  | cartRAM
  | workRAM
  | apuRAM
  | videoRAM
  | cgRAM
  | oam
deriving DecidableEq, Repr

/-- fxpakpro `domainDesc`: one row of the driver's static domain table.
`domainRef` carries a name and a SNES domain type in the source; both
are inlined here. -/
structure DomainDesc where
  name : String
  typ : SnesDomainType
  notes : String
  start : Nat
  size : Nat
  writeable : Bool
deriving DecidableEq, Repr

/-- fxpakpro `domainDescs`: the static table, in source order.  Fields
not listed in a Go literal default to zero/false. -/
def domainDescs : List DomainDesc :=
  [ ⟨"CARTROM", .cartROM, "Cartridge ROM", 0, 0xE00000, true⟩,
    ⟨"CARTRAM", .cartRAM, "Cartridge battery-backed RAM aka SRAM", 0xE00000, 0x100000, true⟩,
    ⟨"WRAM", .workRAM, "Console Work RAM", 0xF50000, 0x20000, false⟩,
    ⟨"APURAM", .apuRAM, "Console APU RAM", 0xF80000, 0x10000, false⟩,
    ⟨"VRAM", .videoRAM, "Console Video RAM", 0xF70000, 0x10000, false⟩,
    ⟨"CGRAM", .cgRAM, "Console Video Palette RAM", 0xF90000, 0x0200, false⟩,
    ⟨"OAM", .oam, "Console Object Attribute Memory", 0xF90200, 0x0420 - 0x0200, false⟩,
    ⟨"FXPAKPRO_SNES", .coreSpecific, "Entire FX Pak Pro address space for SNES space", 0, 0x1000000, true⟩,
    ⟨"FXPAKPRO_CMD", .coreSpecific, "Entire FX Pak Pro address space for CMD space", 0x1000000, 0x1000000, true⟩ ]

/-- `sni.MemoryDomain` as filled in by the fxpakpro package `init`. -/
structure FxMemoryDomain where
  core : String
  name : String
  typ : SnesDomainType
  notes : String
  size : Nat
  readable : Bool
  writeable : Bool
deriving DecidableEq, Repr

/-- The package-level `domains` slice built by fxpakpro's `init`:
every entry is marked `Readable: true` and copies `Writeable` from the
descriptor. -/
def fxDomains : List FxMemoryDomain :=
  domainDescs.map fun d =>
    ⟨"fxpakpro", d.name, d.typ, d.notes, d.size, true, d.writeable⟩

/-- `domainDescByName`: the `init` loop inserts every descriptor keyed
by its name; a later insert overwrites an earlier one, so lookup finds
the last matching row. -/
def domainDescByName (n : String) : Option DomainDesc :=
  domainDescs.reverse.find? (fun d => d.name = n)

/-- `domainDescByType`: same construction keyed by the SNES domain type. -/
def domainDescByType (t : SnesDomainType) : Option DomainDesc :=
  domainDescs.reverse.find? (fun d => d.typ = t)

/-- Device state visible to the fxpakpro `MemoryDomains` method.  The
method's receiver is unused, which is what makes the table static; the
state is still threaded through to express that independence. -/
structure FxDeviceState where
  closed : Bool
deriving DecidableEq, Repr

/-- `sni.MemoryDomainsResponse` (the fields fxpakpro fills in). -/
structure FxMemoryDomainsResponse where
  uri : String
  domains : List FxMemoryDomain
deriving DecidableEq, Repr

/-- fxpakpro `Device.MemoryDomains`: returns the static `domains` list
for any device state and request. -/
def fxMemoryDomains (_d : FxDeviceState) (uri : String) :
    FxMemoryDomainsResponse :=
  ⟨uri, fxDomains⟩

/-- C8: the FX Pak Pro `MemoryDomains` operation returns the same static
table for every device state: the seven SNES domains plus
`FXPAKPRO_SNES` (start 0, size 0x1000000) and `FXPAKPRO_CMD`
(start 0x1000000, size 0x1000000), all readable, with `VRAM`, `CGRAM`
and `OAM` not writeable.  (`WRAM` and `APURAM` are not writeable in the
static table either.) -/
theorem fxMemoryDomains_static :
    (∀ d d' : FxDeviceState, ∀ uri : String,
      fxMemoryDomains d uri = fxMemoryDomains d' uri) ∧
    (∀ d : FxDeviceState, ∀ uri : String,
      (fxMemoryDomains d uri).domains = fxDomains) ∧
    (fxDomains.map (fun d => d.name)) =
      ["CARTROM", "CARTRAM", "WRAM", "APURAM", "VRAM", "CGRAM", "OAM",
       "FXPAKPRO_SNES", "FXPAKPRO_CMD"] ∧
    (∀ d ∈ fxDomains, d.readable = true) ∧
    (∀ d ∈ fxDomains, d.name = "VRAM" ∨ d.name = "CGRAM" ∨ d.name = "OAM" →
      d.writeable = false) ∧
    (domainDescByName "FXPAKPRO_SNES" =
      some ⟨"FXPAKPRO_SNES", .coreSpecific,
        "Entire FX Pak Pro address space for SNES space", 0, 0x1000000, true⟩) ∧
    (domainDescByName "FXPAKPRO_CMD" =
      some ⟨"FXPAKPRO_CMD", .coreSpecific,
        "Entire FX Pak Pro address space for CMD space", 0x1000000, 0x1000000, true⟩) := by
  exact ⟨fun d d' uri => rfl, fun d uri => rfl, by decide, by decide, by decide,
    by decide, by decide⟩

/-- Witness for C8 at concrete entries: the `VRAM` row of the static
table is readable but not writeable. -/
theorem fxMemoryDomains_static_witness :
    (⟨"fxpakpro", "VRAM", SnesDomainType.videoRAM, "Console Video RAM",
      0x10000, true, false⟩ : FxMemoryDomain).writeable = false ∧
    (⟨"fxpakpro", "VRAM", SnesDomainType.videoRAM, "Console Video RAM",
      0x10000, true, false⟩ : FxMemoryDomain).readable = true := by
  constructor
  · exact fxMemoryDomains_static.2.2.2.2.1 _ (by decide) (Or.inl rfl)
  · exact fxMemoryDomains_static.2.2.2.1 _ (by decide)

/-! ## FX Pak Pro `MultiDomainRead` / `MultiDomainWrite` validation
(fxpakpro `domains.go`) -/

/-- `sni.MemoryDomainRef` as consumed by the fxpakpro driver: `typ` is
`none` when `Domain.Type` is not of the SNES variant, and `name` is the
optional domain name used for `SNESCoreSpecificMemory` lookups. -/
structure DomainRef where
  typ : Option SnesDomainType
  name : Option String
deriving DecidableEq, Repr

/-- ASCII upper-casing of a string, modelling `strings.ToUpper` on the
ASCII domain names the driver uses. -/
def asciiUpper (s : String) : String :=
  ⟨s.data.map fun c =>
    if 'a' ≤ c ∧ c ≤ 'z' then Char.ofNat (c.toNat - 32) else c⟩

/-- Domain resolution shared by fxpakpro `MultiDomainRead` and
`MultiDomainWrite` (domains.go): non-SNES type, a missing name for
core-specific lookups, and unknown names/types are `InvalidArgument`. -/
def resolveDomain (ref : DomainRef) : Except Unit DomainDesc :=
  match ref.typ with
  | none => .error ()
  | some t =>
    if t = .coreSpecific then
      match ref.name with
      | none => .error ()
      | some n =>
        match domainDescByName (asciiUpper n) with
        | none => .error ()
        | some dm => .ok dm
    else
      match domainDescByType t with
      | none => .error ()
      | some dm => .ok dm

/-- One grouped read request: `(address, size)` pairs, both `uint32`
values (naturals below `2^32`). -/
structure DomainReadGroup where
  domain : DomainRef
  reads : List (Nat × Nat)
deriving DecidableEq, Repr

/-- One grouped write request: `(address, data)` pairs. -/
structure DomainWriteGroup where
  domain : DomainRef
  writes : List (Nat × List Nat)
deriving DecidableEq, Repr

/-- A flattened device read passed to `MultiReadMemory` on success. -/
structure FlatRead where
  address : Nat
  size : Nat
deriving DecidableEq, Repr

/-- `2^32`: the modulus of Go's `uint32` arithmetic. -/
def pow32 : Nat := 2 ^ 32

/-- The per-read validation loop of fxpakpro `MultiDomainRead`
(domains.go lines 379–397): `read.Address >= dm.size` and
`read.Address+read.Size > dm.size` are rejected, where the sum is Go
`uint32` addition, i.e. taken modulo `2^32`. -/
def validateReads (dm : DomainDesc) : List (Nat × Nat) → Except Unit (List FlatRead)
  | [] => .ok []
  | (a, s) :: rest =>
    if a ≥ dm.size then .error ()
    else if (a + s) % pow32 > dm.size then .error ()
    else
      match validateReads dm rest with
      | .error e => .error e
      | .ok ms => .ok (⟨(dm.start + a) % pow32, s⟩ :: ms)

/-- The group loop of fxpakpro `MultiDomainRead`: resolve each domain,
validate each read, and accumulate the flattened device reads in
request order. -/
def validateReadGroups : List DomainReadGroup → Except Unit (List FlatRead)
  | [] => .ok []
  | g :: rest =>
    match resolveDomain g.domain with
    | .error e => .error e
    | .ok dm =>
      match validateReads dm g.reads with
      | .error e => .error e
      | .ok ms =>
        match validateReadGroups rest with
        | .error e => .error e
        | .ok ms' => .ok (ms ++ ms')

/-- fxpakpro `MultiDomainRead`: all validation happens first; the device
I/O (`d.MultiReadMemory`) runs only when every entry of every group was
accepted.  The abstract `io` function stands for the device transfer. -/
def fxMultiDomainRead (io : List FlatRead → List (List Nat))
    (reqs : List DomainReadGroup) : Except Unit (List (List Nat)) :=
  match validateReadGroups reqs with
  | .error e => .error e
  | .ok ms => .ok (io ms)

/-- The per-write validation loop of fxpakpro `MultiDomainWrite`
(domains.go lines 462–481): `size` is `uint32(len(write.Data))`,
i.e. the data length modulo `2^32`. -/
def validateWrites (dm : DomainDesc) : List (Nat × List Nat) → Except Unit (List FlatRead)
  | [] => .ok []
  | (a, data) :: rest =>
    if a ≥ dm.size then .error ()
    else if (a + data.length % pow32) % pow32 > dm.size then .error ()
    else
      match validateWrites dm rest with
      | .error e => .error e
      | .ok ms => .ok (⟨(dm.start + a) % pow32, data.length % pow32⟩ :: ms)

/-- The group loop of fxpakpro `MultiDomainWrite`. -/
def validateWriteGroups : List DomainWriteGroup → Except Unit (List FlatRead)
  | [] => .ok []
  | g :: rest =>
    match resolveDomain g.domain with
    | .error e => .error e
    | .ok dm =>
      match validateWrites dm g.writes with
      | .error e => .error e
      | .ok ms =>
        match validateWriteGroups rest with
        | .error e => .error e
        | .ok ms' => .ok (ms ++ ms')

/-- fxpakpro `MultiDomainWrite`: validation precedes the single
`d.MultiWriteMemory` call. -/
def fxMultiDomainWrite (io : List FlatRead → Unit)
    (reqs : List DomainWriteGroup) : Except Unit Unit :=
  match validateWriteGroups reqs with
  | .error e => .error e
  | .ok ms => .ok (io ms)

theorem validateReads_ok_bounds (dm : DomainDesc) :
    ∀ (l : List (Nat × Nat)) (ms : List FlatRead),
      validateReads dm l = .ok ms →
      ∀ p ∈ l, p.1 < dm.size ∧ (p.1 + p.2) % pow32 ≤ dm.size := by
  intro l
  induction l with
  | nil => simp
  | cons q rest ih =>
    obtain ⟨a, s⟩ := q
    intro ms h p hp
    rw [validateReads] at h
    split at h
    · simp at h
    · rename_i h1
      split at h
      · simp at h
      · rename_i h2
        split at h
        · simp at h
        · rename_i x ms1 hrest
          rcases List.mem_cons.mp hp with hp | hp
          · subst hp
            exact ⟨Nat.lt_of_not_le h1, Nat.le_of_not_lt h2⟩
          · exact ih ms1 hrest p hp

theorem validateReadGroups_ok_bounds :
    ∀ (reqs : List DomainReadGroup) (ms : List FlatRead),
      validateReadGroups reqs = .ok ms →
      ∀ g ∈ reqs, ∀ dm, resolveDomain g.domain = .ok dm →
        ∀ p ∈ g.reads, p.1 < dm.size ∧ (p.1 + p.2) % pow32 ≤ dm.size := by
  intro reqs
  induction reqs with
  | nil => simp
  | cons g0 rest ih =>
    intro ms h g hg dm hdm p hp
    rw [validateReadGroups] at h
    split at h
    · simp at h
    · rename_i x dm0 hres
      split at h
      · simp at h
      · rename_i y ms1 hv
        split at h
        · simp at h
        · rename_i z ms2 hrest
          rcases List.mem_cons.mp hg with hg | hg
          · subst hg
            rw [hres] at hdm
            injection hdm with hdm
            subst hdm
            exact validateReads_ok_bounds _ _ ms1 hv p hp
          · exact ih ms2 hrest g hg dm hdm p hp

theorem validateWrites_ok_bounds (dm : DomainDesc) :
    ∀ (l : List (Nat × List Nat)) (ms : List FlatRead),
      validateWrites dm l = .ok ms →
      ∀ p ∈ l, p.1 < dm.size ∧ (p.1 + p.2.length % pow32) % pow32 ≤ dm.size := by
  intro l
  induction l with
  | nil => simp
  | cons q rest ih =>
    obtain ⟨a, data⟩ := q
    intro ms h p hp
    rw [validateWrites] at h
    split at h
    · simp at h
    · rename_i h1
      split at h
      · simp at h
      · rename_i h2
        split at h
        · simp at h
        · rename_i x ms1 hrest
          rcases List.mem_cons.mp hp with hp | hp
          · subst hp
            exact ⟨Nat.lt_of_not_le h1, Nat.le_of_not_lt h2⟩
          · exact ih ms1 hrest p hp

theorem validateWriteGroups_ok_bounds :
    ∀ (reqs : List DomainWriteGroup) (ms : List FlatRead),
      validateWriteGroups reqs = .ok ms →
      ∀ g ∈ reqs, ∀ dm, resolveDomain g.domain = .ok dm →
        ∀ p ∈ g.writes, p.1 < dm.size ∧ (p.1 + p.2.length % pow32) % pow32 ≤ dm.size := by
  intro reqs
  induction reqs with
  | nil => simp
  | cons g0 rest ih =>
    intro ms h g hg dm hdm p hp
    rw [validateWriteGroups] at h
    split at h
    · simp at h
    · rename_i x dm0 hres
      split at h
      · simp at h
      · rename_i y ms1 hv
        split at h
        · simp at h
        · rename_i z ms2 hrest
          rcases List.mem_cons.mp hg with hg | hg
          · subst hg
            rw [hres] at hdm
            injection hdm with hdm
            subst hdm
            exact validateWrites_ok_bounds _ _ ms1 hv p hp
          · exact ih ms2 hrest g hg dm hdm p hp

/-- C2 (amended): in the fxpakpro `MultiDomainRead`/`MultiDomainWrite`
validation, every entry whose offset is at least the domain's size, or
whose offset plus request size — computed in Go `uint32` wraparound
arithmetic — exceeds the domain's size, makes the whole call fail with
`InvalidArgument` before any device I/O (the result is `.error` for
every possible device-transfer function `io`); and a boundary entry
with offset `size-1` and length 1 is accepted.  The mathematical
(unbounded) bound `offset + size ≤ domain.size` of the original claim
is enforced only up to wraparound: see the counterexample. -/
theorem fxMultiDomain_range_validation :
    (∀ (reqs : List DomainReadGroup) (g : DomainReadGroup) (dm : DomainDesc),
      g ∈ reqs → resolveDomain g.domain = .ok dm →
      (∃ p ∈ g.reads, dm.size ≤ p.1 ∨ dm.size < (p.1 + p.2) % pow32) →
      ∀ io, fxMultiDomainRead io reqs = .error ()) ∧
    (∀ (reqs : List DomainWriteGroup) (g : DomainWriteGroup) (dm : DomainDesc),
      g ∈ reqs → resolveDomain g.domain = .ok dm →
      (∃ p ∈ g.writes, dm.size ≤ p.1 ∨ dm.size < (p.1 + p.2.length % pow32) % pow32) →
      ∀ io, fxMultiDomainWrite io reqs = .error ()) ∧
    (∀ dm : DomainDesc, 1 ≤ dm.size → dm.size < pow32 →
      validateReads dm [(dm.size - 1, 1)] =
        .ok [⟨(dm.start + (dm.size - 1)) % pow32, 1⟩]) ∧
    (∀ (dm : DomainDesc) (b : Nat), 1 ≤ dm.size → dm.size < pow32 →
      validateWrites dm [(dm.size - 1, [b])] =
        .ok [⟨(dm.start + (dm.size - 1)) % pow32, 1⟩]) := by
  refine ⟨?_, ?_, ?_, ?_⟩
  · intro reqs g dm hg hdm hbad io
    rw [fxMultiDomainRead]
    rcases h : validateReadGroups reqs with e | ms
    · cases e
      rfl
    · exfalso
      obtain ⟨p, hp, hb⟩ := hbad
      have := validateReadGroups_ok_bounds reqs ms h g hg dm hdm p hp
      rcases hb with hb | hb
      · exact absurd this.1 (Nat.not_lt.mpr hb)
      · exact absurd this.2 (Nat.not_le.mpr hb)
  · intro reqs g dm hg hdm hbad io
    rw [fxMultiDomainWrite]
    rcases h : validateWriteGroups reqs with e | ms
    · cases e
      rfl
    · exfalso
      obtain ⟨p, hp, hb⟩ := hbad
      have := validateWriteGroups_ok_bounds reqs ms h g hg dm hdm p hp
      rcases hb with hb | hb
      · exact absurd this.1 (Nat.not_lt.mpr hb)
      · exact absurd this.2 (Nat.not_le.mpr hb)
  · intro dm h1 h2
    have hlt : dm.size - 1 < dm.size := Nat.sub_lt h1 Nat.one_pos
    have hmod : (dm.size - 1 + 1) % pow32 = dm.size := by
      have hs : dm.size - 1 + 1 = dm.size := by omega
      rw [hs]
      exact Nat.mod_eq_of_lt h2
    rw [validateReads, if_neg (Nat.not_le.mpr hlt), hmod,
      if_neg (lt_irrefl dm.size), validateReads]
  · intro dm b h1 h2
    have hlt : dm.size - 1 < dm.size := Nat.sub_lt h1 Nat.one_pos
    have hone : [b].length % pow32 = 1 := rfl
    have hmod : (dm.size - 1 + 1) % pow32 = dm.size := by
      have hs : dm.size - 1 + 1 = dm.size := by omega
      rw [hs]
      exact Nat.mod_eq_of_lt h2
    rw [validateWrites, if_neg (Nat.not_le.mpr hlt), hone, hmod,
      if_neg (lt_irrefl dm.size), validateWrites]

/-- Witness for C2 at concrete inputs: against `CARTROM`
(size `0xE00000`) an entry with offset `0xE00000` (= size) is rejected
with no device I/O, and the boundary entry `(size-1, length 1)` passes
validation. -/
theorem fxMultiDomain_range_validation_witness :
    fxMultiDomainRead (fun _ => [[0]])
      [⟨⟨some .cartROM, none⟩, [(0xE00000, 1)]⟩] = .error () ∧
    validateReads ⟨"CARTROM", .cartROM, "Cartridge ROM", 0, 0xE00000, true⟩
      [(0xE00000 - 1, 1)] = .ok [⟨0xDFFFFF, 1⟩] := by
  constructor
  · exact fxMultiDomain_range_validation.1
      [⟨⟨some .cartROM, none⟩, [(0xE00000, 1)]⟩]
      ⟨⟨some .cartROM, none⟩, [(0xE00000, 1)]⟩
      ⟨"CARTROM", .cartROM, "Cartridge ROM", 0, 0xE00000, true⟩
      (by simp) rfl ⟨(0xE00000, 1), by simp, Or.inl (by decide)⟩
      (fun _ => [[0]])
  · have := fxMultiDomain_range_validation.2.2.1
      ⟨"CARTROM", .cartROM, "Cartridge ROM", 0, 0xE00000, true⟩
      (by decide) (by decide)
    simpa using this

/-- C2 counterexample to the original claim: against `CARTROM`
(size `0xE00000`), the entry `(offset 1, size 0xFFFFFFFF)` has
`offset + size = 0x100000000 > 0xE00000` mathematically, yet the Go
`uint32` sum wraps to `0`, the bounds check passes, and the call
proceeds to device I/O instead of failing with `InvalidArgument`. -/
theorem fxMultiDomainRead_wraparound_counterexample :
    0xE00000 < 1 + 0xFFFFFFFF ∧
    validateReadGroups [⟨⟨some .cartROM, none⟩, [(1, 0xFFFFFFFF)]⟩] =
      .ok [⟨1, 0xFFFFFFFF⟩] ∧
    fxMultiDomainRead (fun _ => [[0]])
      [⟨⟨some .cartROM, none⟩, [(1, 0xFFFFFFFF)]⟩] = .ok [[0]] := by
  refine ⟨by norm_num, rfl, ?_⟩
  rw [fxMultiDomainRead]
  rw [show validateReadGroups [⟨⟨some .cartROM, none⟩, [(1, 0xFFFFFFFF)]⟩] =
    .ok [⟨1, 0xFFFFFFFF⟩] from rfl]

/-! ## FX Pak Pro `listFiles` response-header checks (fxpakpro `ls.go`) -/

/-- Modelled from the spec: the fxpakpro opcode constants file is not
part of the sources at hand; the spec's opcode table gives
`RESPONSE = 31`.  None of the header-check claims depend on the
concrete value. -/
def opRESPONSE : Nat := 31

/-- `binary.BigEndian.Uint32` over four byte values. -/
def beUint32 (b0 b1 b2 b3 : Nat) : Nat :=
  b0 * 2 ^ 24 + b1 * 2 ^ 16 + b2 * 2 ^ 8 + b3

/-- Classification of the first `listFiles` response packet. -/
inductive LsHeaderResult where
  | fatal
  | nonFatal (ec : Nat)
  | accepted
deriving DecidableEq, Repr

/-- The `USBA` magic check of `listFiles` (ls.go line 40). -/
def lsMagicOk (sb : List Nat) : Prop :=
  sb.getD 0 0 = 85 ∧ sb.getD 1 0 = 83 ∧ sb.getD 2 0 = 66 ∧ sb.getD 3 0 = 65

instance (sb : List Nat) : Decidable (lsMagicOk sb) := by
  unfold lsMagicOk
  infer_instance

/-- The big-endian size field of a response packet (bytes 252..255). -/
def lsSizeField (sb : List Nat) : Nat :=
  beUint32 (sb.getD 252 0) (sb.getD 253 0) (sb.getD 254 0) (sb.getD 255 0)

/-- The response-header validation of `listFiles` (ls.go lines 40–61):
wrong `USBA` magic, a size field other than 1, and a wrong opcode are
fatal errors; otherwise a nonzero error byte (byte 5) is a non-fatal
error; otherwise the packet is accepted and the listing proceeds. -/
def lsCheckHeader (sb : List Nat) : LsHeaderResult :=
  if ¬lsMagicOk sb then .fatal
  else if lsSizeField sb ≠ 1 then .fatal
  else if sb.getD 4 0 ≠ opRESPONSE then .fatal
  else if sb.getD 5 0 ≠ 0 then .nonFatal (sb.getD 5 0)
  else .accepted

/-- C7: in the FX Pak Pro LS operation, a response packet with a wrong
`USBA` magic, a size field different from 1, or a wrong opcode is
classified as a fatal error (`DeviceFatal`, upon which the device is
closed), while a nonzero error byte (byte 5) of an otherwise
well-formed RESPONSE packet is classified as a non-fatal error
(`DeviceNonFatal`, after which the session survives). -/
theorem lsCheckHeader_classification (sb : List Nat) :
    (¬lsMagicOk sb → lsCheckHeader sb = .fatal) ∧
    (lsMagicOk sb → lsSizeField sb ≠ 1 → lsCheckHeader sb = .fatal) ∧
    (lsMagicOk sb → lsSizeField sb = 1 → sb.getD 4 0 ≠ opRESPONSE →
      lsCheckHeader sb = .fatal) ∧
    (lsMagicOk sb → lsSizeField sb = 1 → sb.getD 4 0 = opRESPONSE →
      sb.getD 5 0 ≠ 0 → lsCheckHeader sb = .nonFatal (sb.getD 5 0)) ∧
    (lsMagicOk sb → lsSizeField sb = 1 → sb.getD 4 0 = opRESPONSE →
      sb.getD 5 0 = 0 → lsCheckHeader sb = .accepted) := by
  refine ⟨fun h1 => ?_, fun h1 h2 => ?_, fun h1 h2 h3 => ?_,
    fun h1 h2 h3 h4 => ?_, fun h1 h2 h3 h4 => ?_⟩ <;>
    simp_all [lsCheckHeader]

/-- Witness for C7 at concrete packets: a packet with a broken magic is
fatal, and a well-formed RESPONSE packet with error byte 4 is
non-fatal. -/
theorem lsCheckHeader_classification_witness :
    lsCheckHeader ([66, 65, 68, 33, 31, 0] ++ List.replicate 246 0
      ++ [0, 0, 0, 1] ++ List.replicate 256 0) = .fatal ∧
    lsCheckHeader ([85, 83, 66, 65, 31, 4] ++ List.replicate 246 0
      ++ [0, 0, 0, 1] ++ List.replicate 256 0) = .nonFatal 4 := by
  constructor
  · exact (lsCheckHeader_classification _).1 (by decide)
  · exact (lsCheckHeader_classification _).2.2.2.1
      (by decide) (by decide) (by decide) (by decide)

/-! ## NWA ASCII reply parser (emunwa `client.go`, `parseResponse`
lines 276–322)

`parseResponse` first reads one byte; `'\n'` announces an ASCII reply,
whose remaining bytes are scanned as lines by a `bufio.Scanner` with
the standard `ScanLines` split (lines are `'\n'`-separated, a trailing
`'\r'` is dropped from each line, and a final non-terminated line is
still produced).  The functions below embed that ASCII branch; the
input is the reply body after the leading `'\n'`. -/

/-- One parsed key→value item (`map[string]string` in insertion
order). -/
abbrev Item := List (List Char × List Char)

/-- Close one scanner token: the accumulator holds the line's
characters in reverse; `ScanLines` drops a single trailing `'\r'`. -/
def scanToken (acc : List Char) : List Char :=
  match acc with
  | [] => []
  | c :: acc2 => if c = '\r' then acc2.reverse else (c :: acc2).reverse

/-- `bufio.Scanner`/`ScanLines` tokenisation. -/
def scanLinesAux (acc : List Char) : List Char → List (List Char)
  | [] => if acc.isEmpty then [] else [scanToken acc]
  | c :: rest =>
    if c = '\n' then scanToken acc :: scanLinesAux [] rest
    else scanLinesAux (c :: acc) rest

/-- All lines of a reply body. -/
def scanLines (s : List Char) : List (List Char) :=
  scanLinesAux [] s

/-- `strings.SplitN(l, ":", 2)` followed by the key/value projection of
`parseResponse`: the key is everything before the first `':'`, the
value everything after it, and a line without `':'` yields the whole
line as key with an empty value. -/
def lineKV : List Char → List Char × List Char
  | [] => ([], [])
  | c :: rest =>
    if c = ':' then ([], rest)
    else (c :: (lineKV rest).1, (lineKV rest).2)

/-- Does the current item already contain the key? (`_, hasKey := item[key]`). -/
def itemHasKey (item : Item) (k : List Char) : Bool :=
  item.any (fun p => p.1 = k)

/-- `item[key] = value`: replace if present, else append. -/
def itemSet (item : Item) (k v : List Char) : Item :=
  if itemHasKey item k then
    item.map (fun p => if p.1 = k then (k, v) else p)
  else item ++ [(k, v)]

/-- `item[key]` with Go's zero-value default. -/
def itemGet (item : Item) (k : List Char) : List Char :=
  ((item.find? (fun p => p.1 = k)).map (fun p => p.2)).getD []

/-- The scan loop of `parseResponse` (lines 291–316): an empty line
breaks out of the loop; a repeated key appends the current item and
starts a fresh one; after the loop a non-empty current item is
appended. -/
def parseItemsLoop (item : Item) : List (List Char) → List Item
  | [] => if item.length > 0 then [item] else []
  | l :: rest =>
    if l = [] then (if item.length > 0 then [item] else [])
    else
      if itemHasKey item (lineKV l).1 then
        item :: parseItemsLoop (itemSet [] (lineKV l).1 (lineKV l).2) rest
      else
        parseItemsLoop (itemSet item (lineKV l).1 (lineKV l).2) rest

/-- The ASCII branch of `parseResponse`, applied to the reply body that
follows the leading `'\n'` byte. -/
def parseAsciiBody (s : List Char) : List Item :=
  parseItemsLoop [] (scanLines s)

theorem lineKV_no_colon (l : List Char) (h : ':' ∉ l) : lineKV l = (l, []) := by
  induction l with
  | nil => rfl
  | cons c rest ih =>
    have hc : c ≠ ':' := fun hc => h (hc ▸ List.mem_cons_self c rest)
    have hr : ':' ∉ rest := fun hr => h (List.mem_cons_of_mem c hr)
    rw [lineKV, if_neg hc, ih hr]

theorem lineKV_first_colon (s t : List Char) (h : ':' ∉ s) :
    lineKV (s ++ ':' :: t) = (s, t) := by
  induction s with
  | nil => simp [lineKV]
  | cons c rest ih =>
    have hc : c ≠ ':' := fun hc => h (hc ▸ List.mem_cons_self c rest)
    have hr : ':' ∉ rest := fun hr => h (List.mem_cons_of_mem c hr)
    rw [List.cons_append, lineKV, if_neg hc, ih hr]

theorem scanLinesAux_append (l : List Char) (h : '\n' ∉ l) :
    ∀ (acc rest : List Char),
      scanLinesAux acc (l ++ '\n' :: rest) =
        scanToken (l.reverse ++ acc) :: scanLinesAux [] rest := by
  induction l with
  | nil =>
    intro acc rest
    simp [scanLinesAux]
  | cons c l2 ih =>
    intro acc rest
    have hc : c ≠ '\n' := fun hc => h (hc ▸ List.mem_cons_self c l2)
    have hr : '\n' ∉ l2 := fun hr => h (List.mem_cons_of_mem c hr)
    rw [List.cons_append, scanLinesAux, if_neg hc, ih hr (c :: acc) rest]
    simp

theorem scanToken_no_cr (l : List Char) (h : '\r' ∉ l) :
    scanToken l.reverse = l := by
  rcases hrev : l.reverse with _ | ⟨c, t⟩
  · have : l = [] := by simpa using congrArg List.reverse hrev
    simp [this, scanToken]
  · have hcl : c ∈ l := by
      have : c ∈ l.reverse := by simp [hrev]
      simpa using this
    have hc : c ≠ '\r' := fun hc => h (hc ▸ hcl)
    rw [scanToken, if_neg hc, ← hrev, List.reverse_reverse]

/-- C9: each reply line is split at the first `':'` only — a line with
no colon yields the whole line as key and an empty value, any text
after the first colon (further colons included) becomes the value
unchanged, and a single-line reply body produces exactly that
key/value pair as its only item. -/
theorem parseResponse_splits_once :
    (∀ l : List Char, ':' ∉ l → lineKV l = (l, [])) ∧
    (∀ s t : List Char, ':' ∉ s → lineKV (s ++ ':' :: t) = (s, t)) ∧
    (∀ l : List Char, l ≠ [] → '\n' ∉ l → '\r' ∉ l →
      parseAsciiBody (l ++ ['\n', '\n']) = [[lineKV l]]) := by
  refine ⟨lineKV_no_colon, lineKV_first_colon, ?_⟩
  intro l hne hn hr
  have h1 : scanLines (l ++ ['\n', '\n']) = [l, []] := by
    rw [scanLines, show (l ++ ['\n', '\n'] : List Char) = l ++ '\n' :: ['\n'] from rfl,
      scanLinesAux_append l hn [] ['\n'], List.append_nil, scanToken_no_cr l hr]
    rfl
  rw [parseAsciiBody, h1, parseItemsLoop, if_neg hne]
  have hk : ¬(itemHasKey [] (lineKV l).1 = true) := by simp [itemHasKey]
  rw [if_neg hk]
  have hset : itemSet [] (lineKV l).1 (lineKV l).2 = [lineKV l] := by
    simp [itemSet, itemHasKey]
  rw [hset]
  rfl

/-- Witness for C9 at concrete lines: `"a:b:c"` splits into key `"a"`
and value `"b:c"` (the second colon is preserved in the value), a line
without a colon becomes the key of an empty-valued entry, and a
one-line reply body yields exactly that entry. -/
theorem parseResponse_splits_once_witness :
    lineKV ("a".data ++ ':' :: "b:c".data) = ("a".data, "b:c".data) ∧
    lineKV "nocolon".data = ("nocolon".data, []) ∧
    parseAsciiBody ("key:val".data ++ ['\n', '\n']) = [[lineKV "key:val".data]] :=
  ⟨parseResponse_splits_once.2.1 _ _ (by decide),
   parseResponse_splits_once.1 _ (by decide),
   parseResponse_splits_once.2.2 _ (by decide) (by decide) (by decide)⟩

/-- C1 (amended): a repeated key within the current item appends that
item to the reply array and starts a new item, but an empty line
terminates the whole ASCII reply.  Hence the two-item body without a
blank line, `"id:1\nname:foo\nid:2\nname:bar\n\n"`, parses to
`[{id:1,name:foo},{id:2,name:bar}]`, while the original claim's body
`"id:1\nname:foo\n\nid:2\nname:bar\n\n"` stops at the blank line and
yields only `[{id:1,name:foo}]`. -/
theorem parseAscii_duplicate_key_delimits :
    (∀ (l : List Char) (ls : List (List Char)) (item : Item),
      l ≠ [] → itemHasKey item (lineKV l).1 = true →
      parseItemsLoop item (l :: ls) =
        item :: parseItemsLoop (itemSet [] (lineKV l).1 (lineKV l).2) ls) ∧
    parseAsciiBody "id:1\nname:foo\nid:2\nname:bar\n\n".data =
      [[("id".data, "1".data), ("name".data, "foo".data)],
       [("id".data, "2".data), ("name".data, "bar".data)]] ∧
    parseAsciiBody "id:1\nname:foo\n\nid:2\nname:bar\n\n".data =
      [[("id".data, "1".data), ("name".data, "foo".data)]] := by
  refine ⟨?_, by decide, by decide⟩
  intro l ls item hne hk
  rw [parseItemsLoop, if_neg hne, if_pos hk]

/-- Witness for C1 (amended) at a concrete step: a line whose key `id`
already occurs in the current item closes that item and starts a fresh
one holding `id:2`. -/
theorem parseAscii_duplicate_key_delimits_witness :
    parseItemsLoop [("id".data, "1".data)] ["id:2".data] =
      [("id".data, "1".data)] ::
        parseItemsLoop (itemSet [] (lineKV "id:2".data).1 (lineKV "id:2".data).2) [] :=
  parseAscii_duplicate_key_delimits.1 _ _ _ (by decide) (by decide)

/-- C1 counterexample to the original claim: the literal reply body
`"id:1\nname:foo\n\nid:2\nname:bar\n\n"` does NOT parse to the two
items `[{id:1,name:foo},{id:2,name:bar}]` — the scan loop breaks at the
first empty line, so everything after it is never parsed. -/
theorem parseAscii_blank_line_counterexample :
    parseAsciiBody "id:1\nname:foo\n\nid:2\nname:bar\n\n".data =
      [[("id".data, "1".data), ("name".data, "foo".data)]] ∧
    parseAsciiBody "id:1\nname:foo\n\nid:2\nname:bar\n\n".data ≠
      [[("id".data, "1".data), ("name".data, "foo".data)],
       [("id".data, "2".data), ("name".data, "bar".data)]] := by
  constructor
  · decide
  · decide

/-! ## `FetchFields` (emunwa `client.go` lines 980–1077) -/

/-- `sni.Field` protobuf enum; `other` stands for any further field
value, which hits no `case` of either switch. -/
inductive Field where
  | deviceName
  | deviceVersion
  | deviceStatus
  | coreName
  | coreVersion
  | corePlatform
  | romFileName
  | other
deriving DecidableEq, Repr

/-- The four `want*` flags of `FetchFields`. -/
structure Wants where
  gameInfo : Bool
  coreInfo : Bool
  emulatorInfo : Bool
  emulationStatus : Bool
deriving DecidableEq, Repr

/-- One iteration of the first switch of `FetchFields` (lines 991–1009).
In Go a `case` with an empty body does NOT fall through, so
`Field_DeviceName`, `Field_CoreName` and `Field_CoreVersion` match
their empty cases and set no flag. -/
def wantStep (w : Wants) : Field → Wants
  | .deviceName => w
  | .deviceVersion => { w with emulatorInfo := true }
  | .deviceStatus => { w with emulationStatus := true }
  | .coreName => w
  | .coreVersion => w
  | .corePlatform => { w with coreInfo := true }
  | .romFileName => { w with gameInfo := true }
  | .other => w

/-- The flags after scanning all requested fields. -/
def wantsFor (fields : List Field) : Wants :=
  fields.foldl wantStep ⟨false, false, false, false⟩

/-- `SendCommandWaitReply` for ASCII commands: the transport either
fails or delivers a parsed ASCII reply (the oracle); an `error` key in
the first reply item is surfaced as a command error. -/
def sendCommandWaitReply (oracle : String → Except Unit (List Item))
    (cmd : String) : Except Unit (List Item) :=
  match oracle cmd with
  | .error e => .error e
  | .ok items =>
    match items with
    | [] => .ok []
    | item0 :: _ =>
      if itemHasKey item0 ("error".data) then .error () else .ok items

/-- `getFirstValue(reply, name)` (lines 973–978). -/
def getFirstValue (reply : List Item) (name : List Char) : List Char :=
  match reply with
  | [] => []
  | item0 :: _ => itemGet item0 name

/-- The projection switch of `FetchFields` (lines 1047–1073), given the
four replies (empty when the corresponding command was not sent —
a lookup in a nil Go map yields the zero value `""`). -/
def projField (gameInfo coreInfo emulatorInfo emulationStatus : List Item) :
    Field → List Char
  | .deviceName => getFirstValue emulatorInfo "name".data
  | .deviceVersion => getFirstValue emulatorInfo "version".data
  | .deviceStatus => getFirstValue emulationStatus "state".data
  | .coreName => getFirstValue coreInfo "name".data
  | .coreVersion => getFirstValue coreInfo "version".data
  | .corePlatform => getFirstValue coreInfo "platform".data
  | .romFileName => getFirstValue gameInfo "file".data
  | .other => []

/-- `Client.FetchFields`: issue each of the four source commands iff
its flag was set (in the source's fixed order), then project one value
per requested field.  Returns the values (or the first transport
error) together with the list of commands issued. -/
def fetchFields (oracle : String → Except Unit (List Item))
    (fields : List Field) : Except Unit (List (List Char)) × List String :=
  let w := wantsFor fields
  let issued1 : List String := if w.gameInfo then ["GAME_INFO"] else []
  match (if w.gameInfo then sendCommandWaitReply oracle "GAME_INFO" else .ok []) with
  | .error e => (.error e, issued1)
  | .ok gameInfo =>
    let issued2 := issued1 ++ (if w.coreInfo then ["CORE_CURRENT_INFO"] else [])
    match (if w.coreInfo then sendCommandWaitReply oracle "CORE_CURRENT_INFO" else .ok []) with
    | .error e => (.error e, issued2)
    | .ok coreInfo =>
      let issued3 := issued2 ++ (if w.emulatorInfo then ["EMULATOR_INFO"] else [])
      match (if w.emulatorInfo then sendCommandWaitReply oracle "EMULATOR_INFO" else .ok []) with
      | .error e => (.error e, issued3)
      | .ok emulatorInfo =>
        let issued4 := issued3 ++ (if w.emulationStatus then ["EMULATION_STATUS"] else [])
        match (if w.emulationStatus then sendCommandWaitReply oracle "EMULATION_STATUS" else .ok []) with
        | .error e => (.error e, issued4)
        | .ok emulationStatus =>
          (.ok (fields.map (projField gameInfo coreInfo emulatorInfo emulationStatus)),
           issued4)

/-- C4 is a code bug (a missing Go `fallthrough`/multi-value `case`):
requesting only `CoreName` — a field served by `CORE_CURRENT_INFO`
according to the code's own comments — issues no command at all and
returns the empty string projected from a nil reply; likewise for
`DeviceName` (served by `EMULATOR_INFO`) and `CoreVersion`.  Requesting
`CorePlatform` does issue `CORE_CURRENT_INFO`. -/
theorem fetchFields_empty_case_bug :
    (∀ oracle, fetchFields oracle [.coreName] = (.ok [[]], [])) ∧
    (∀ oracle, fetchFields oracle [.coreVersion] = (.ok [[]], [])) ∧
    (∀ oracle, fetchFields oracle [.deviceName] = (.ok [[]], [])) ∧
    wantsFor [.coreName] = ⟨false, false, false, false⟩ ∧
    wantsFor [.corePlatform] = ⟨false, true, false, false⟩ ∧
    (∀ oracle, (fetchFields oracle [.corePlatform]).2 = ["CORE_CURRENT_INFO"]) := by
  refine ⟨fun oracle => rfl, fun oracle => rfl, fun oracle => rfl, rfl, rfl, ?_⟩
  intro oracle
  rw [fetchFields]
  rcases h : sendCommandWaitReply oracle "CORE_CURRENT_INFO" with e | items
  · rw [show wantsFor [.corePlatform] = ⟨false, true, false, false⟩ from rfl]
    simp [h]
  · rw [show wantsFor [.corePlatform] = ⟨false, true, false, false⟩ from rfl]
    simp [h]

/-! ## UDP client close / fail-fast state machine
(`udpclient/udpclient.go`)

The client state tracked here is `{isConnected, isClosed}` plus
`hasConn` (whether the `*net.UDPConn` field is non-nil).  The outcome
of each underlying socket call is an oracle argument.  `SetWriteDeadline`
/`SetReadDeadline` on a live connection only fail when the descriptor
was closed concurrently, which this single-threaded model excludes, so
the set-deadline step succeeds whenever the connection exists; calling
through a nil `*net.UDPConn` is a Go runtime panic, modelled by the
`panicked` result (unreachable from API-reachable states). -/

/-- The `UDPClient` fields relevant to close/fail-fast behaviour. -/
structure UDPClient where
  isConnected : Bool
  isClosed : Bool
  hasConn : Bool
deriving DecidableEq, Repr, Fintype

/-- The error classes distinguished by the client: `net.ErrClosed`,
timeout errors (`net.Error.Timeout()`), and everything else. -/
inductive UDPErr where
  | errClosed
  | errTimeout
  | errOther
deriving DecidableEq, Repr, Fintype

/-- Outcome of an attempted socket write/read. -/
inductive SockOutcome where
  | ok
  | timeout
  | closed
  | other
deriving DecidableEq, Repr, Fintype

/-- Result of one client operation. -/
inductive OpResult where
  | retOk
  | retErr (e : UDPErr)
  | panicked
deriving DecidableEq, Repr, Fintype

/-- `UDPClient.Close` (udpclient.go lines 205–218): a no-op unless
connected; otherwise closes the socket, clears `c.c`, and marks the
client closed. -/
def closeClient (c : UDPClient) : UDPClient :=
  if !c.isConnected then c
  else { isConnected := false, isClosed := true, hasConn := false }

/-- `UDPClient.Connect` (lines 169–187): errors when already connected;
on a dial error `c.c` stays nil; on success the client is connected.
`isClosed` is never reset. -/
def connectClient (c : UDPClient) (dialOk : Bool) : UDPClient :=
  if c.isConnected then c
  else if dialOk then { c with hasConn := true, isConnected := true }
  else { c with hasConn := false }

/-- `UDPClient.WriteWithDeadline` (lines 49–70): fail fast with
`net.ErrClosed` when closed (no socket I/O — the third component);
otherwise perform the write, and `Close` the client when the error is a
timeout or `net.ErrClosed`. -/
def writeWithDeadline (c : UDPClient) (w : SockOutcome) :
    OpResult × UDPClient × Bool :=
  if c.isClosed then (.retErr .errClosed, c, false)
  else if !c.hasConn then (.panicked, c, false)
  else
    match w with
    | .ok => (.retOk, c, true)
    | .timeout => (.retErr .errTimeout, closeClient c, true)
    | .closed => (.retErr .errClosed, closeClient c, true)
    | .other => (.retErr .errOther, c, true)

/-- `UDPClient.ReadWithDeadline` (lines 72–99): same structure as the
write path. -/
def readWithDeadline (c : UDPClient) (r : SockOutcome) :
    OpResult × UDPClient × Bool :=
  if c.isClosed then (.retErr .errClosed, c, false)
  else if !c.hasConn then (.panicked, c, false)
  else
    match r with
    | .ok => (.retOk, c, true)
    | .timeout => (.retErr .errTimeout, closeClient c, true)
    | .closed => (.retErr .errClosed, closeClient c, true)
    | .other => (.retErr .errOther, c, true)

/-- `UDPClient.WriteThenRead` (lines 127–145): fail fast when closed,
else write under the sequence lock and read on success. -/
def writeThenRead (c : UDPClient) (w r : SockOutcome) :
    OpResult × UDPClient × Bool :=
  if c.isClosed then (.retErr .errClosed, c, false)
  else
    match writeWithDeadline c w with
    | (.retOk, c1, io1) =>
      match readWithDeadline c1 r with
      | (res, c2, io2) => (res, c2, io1 || io2)
    | (res, c1, io1) => (res, c1, io1)

/-- States reachable through the `UDPClient` API, starting from
`NewUDPClient` (all fields zero). -/
inductive UDPReachable : UDPClient → Prop where
  | init : UDPReachable ⟨false, false, false⟩
  | connect (c : UDPClient) (ok : Bool) :
      UDPReachable c → UDPReachable (connectClient c ok)
  | close (c : UDPClient) :
      UDPReachable c → UDPReachable (closeClient c)
  | write (c : UDPClient) (w : SockOutcome) :
      UDPReachable c → UDPReachable (writeWithDeadline c w).2.1
  | read (c : UDPClient) (r : SockOutcome) :
      UDPReachable c → UDPReachable (readWithDeadline c r).2.1
  | wtr (c : UDPClient) (w r : SockOutcome) :
      UDPReachable c → UDPReachable (writeThenRead c w r).2.1

theorem udp_inv_preserved :
    ∀ (c : UDPClient) (w r : SockOutcome) (ok : Bool),
      (c.hasConn = true → c.isConnected = true) →
      ((connectClient c ok).hasConn = true → (connectClient c ok).isConnected = true) ∧
      ((closeClient c).hasConn = true → (closeClient c).isConnected = true) ∧
      ((writeWithDeadline c w).2.1.hasConn = true →
        (writeWithDeadline c w).2.1.isConnected = true) ∧
      ((readWithDeadline c r).2.1.hasConn = true →
        (readWithDeadline c r).2.1.isConnected = true) ∧
      ((writeThenRead c w r).2.1.hasConn = true →
        (writeThenRead c w r).2.1.isConnected = true) := by decide

/-- In every API-reachable state, a live socket implies a connected
client (`c.c != nil` only between a successful `Connect` and the next
`Close`). -/
theorem udp_reachable_inv (c : UDPClient) (h : UDPReachable c) :
    c.hasConn = true → c.isConnected = true := by
  induction h with
  | init => intro hc; cases hc
  | connect c ok _ ih => exact (udp_inv_preserved c .ok .ok ok ih).1
  | close c _ ih => exact (udp_inv_preserved c .ok .ok true ih).2.1
  | write c w _ ih => exact (udp_inv_preserved c w .ok true ih).2.2.1
  | read c r _ ih => exact (udp_inv_preserved c .ok r true ih).2.2.2.1
  | wtr c w r _ ih => exact (udp_inv_preserved c w r true ih).2.2.2.2

theorem udp_core_fail_fast :
    ∀ (c : UDPClient) (w r : SockOutcome),
      (c.hasConn = true → c.isConnected = true) →
      (((writeWithDeadline c w).1 = .retErr .errTimeout ∨
        (writeWithDeadline c w).1 = .retErr .errClosed) →
        (writeWithDeadline c w).2.1.isClosed = true) ∧
      (((readWithDeadline c r).1 = .retErr .errTimeout ∨
        (readWithDeadline c r).1 = .retErr .errClosed) →
        (readWithDeadline c r).2.1.isClosed = true) ∧
      (((writeThenRead c w r).1 = .retErr .errTimeout ∨
        (writeThenRead c w r).1 = .retErr .errClosed) →
        (writeThenRead c w r).2.1.isClosed = true) := by decide

/-- C10: once a `UDPClient` is closed, every `WriteWithDeadline`,
`ReadWithDeadline` and `WriteThenRead` returns `net.ErrClosed` without
any socket I/O and without changing state; in every API-reachable
state, a read or write that fails with a timeout error or with
`net.ErrClosed` leaves the client closed; and the closed flag is never
cleared by any operation, so the first such failure makes all later
operations fail fast. -/
theorem udpClient_close_fail_fast :
    (∀ (c : UDPClient) (w r : SockOutcome), c.isClosed = true →
      writeWithDeadline c w = (.retErr .errClosed, c, false) ∧
      readWithDeadline c r = (.retErr .errClosed, c, false) ∧
      writeThenRead c w r = (.retErr .errClosed, c, false)) ∧
    (∀ c, UDPReachable c → ∀ (w r : SockOutcome),
      (((writeWithDeadline c w).1 = .retErr .errTimeout ∨
        (writeWithDeadline c w).1 = .retErr .errClosed) →
        (writeWithDeadline c w).2.1.isClosed = true) ∧
      (((readWithDeadline c r).1 = .retErr .errTimeout ∨
        (readWithDeadline c r).1 = .retErr .errClosed) →
        (readWithDeadline c r).2.1.isClosed = true) ∧
      (((writeThenRead c w r).1 = .retErr .errTimeout ∨
        (writeThenRead c w r).1 = .retErr .errClosed) →
        (writeThenRead c w r).2.1.isClosed = true)) ∧
    (∀ (c : UDPClient) (w r : SockOutcome) (ok : Bool), c.isClosed = true →
      (connectClient c ok).isClosed = true ∧
      (closeClient c).isClosed = true ∧
      (writeWithDeadline c w).2.1.isClosed = true ∧
      (readWithDeadline c r).2.1.isClosed = true ∧
      (writeThenRead c w r).2.1.isClosed = true) := by
  refine ⟨by decide, ?_, by decide⟩
  intro c hreach w r
  exact udp_core_fail_fast c w r (udp_reachable_inv c hreach)

/-- Witness for C10 at a concrete run: `init → Connect(ok) → write
timing out` reaches the closed state `⟨false, true, false⟩`, where a
subsequent write fails fast with `net.ErrClosed` and no socket I/O,
and the timed-out write itself left the client closed. -/
theorem udpClient_close_fail_fast_witness :
    writeWithDeadline ⟨false, true, false⟩ .ok =
      (.retErr .errClosed, ⟨false, true, false⟩, false) ∧
    (writeWithDeadline (connectClient ⟨false, false, false⟩ true) .timeout).2.1.isClosed
      = true := by
  constructor
  · exact (udpClient_close_fail_fast.1 ⟨false, true, false⟩ .ok .ok rfl).1
  · exact (udpClient_close_fail_fast.2.1 (connectClient ⟨false, false, false⟩ true)
      (UDPReachable.connect ⟨false, false, false⟩ true UDPReachable.init)
      .timeout .ok).1 (Or.inl (by decide))

/-! ## emunwa `MultiReadMemory` (client.go lines 352–441)

The reads are tagged with a memory type by `mapping.MemoryTypeFor`
(outside the sources at hand, kept abstract as a function argument),
grouped per memory type in first-occurrence order, one `CORE_READ` is
sent per group, and each group's single binary reply is distributed
over the group's regions in request order: `region.Data` aliases
`mrsp[j].Data`, which was allocated as `read.Size` zero bytes, and the
copy loop advances `offset` by `region.Size` per region, copying a
partial prefix (or nothing) when the reply is short. -/

/-- `mrsp[j].Data` buffers, as a map from request index to bytes. -/
abbrev Buffers := Nat → List Nat

/-- The `memTypes` list: unique memory-type keys in first-occurrence
order (a key is appended when `readGroups` does not have it yet). -/
def memTypesOf (ts : List String) : List String :=
  ts.foldl (fun acc t => if t ∈ acc then acc else acc ++ [t]) []

/-- `readGroups[t]`: the `(request index, size)` regions of memory type
`t` in request order, starting at index `i0`. -/
def groupOfAux (t : String) : List (String × Nat) → Nat → List (Nat × Nat)
  | [], _ => []
  | (ty, sz) :: rest, i =>
    if ty = t then (i, sz) :: groupOfAux t rest (i + 1)
    else groupOfAux t rest (i + 1)

/-- Go's `copy(dst, src)`: copy `min (len dst) (len src)` bytes into
the front of `dst`, keeping `dst`'s length. -/
def copyGo (dst src : List Nat) : List Nat :=
  src.take dst.length ++ dst.drop (min dst.length src.length)

/-- The per-region copy of the response loop (lines 424–435):
out-of-bounds offset copies nothing; a short reply copies the available
`len(bin)-offset` bytes; otherwise the full `region.Size` bytes. -/
def copyRegion (dst bin : List Nat) (offset size : Nat) : List Nat :=
  if offset ≥ bin.length then dst
  else if size > bin.length - offset then
    copyGo dst ((bin.drop offset).take (bin.length - offset))
  else
    copyGo dst ((bin.drop offset).take size)

/-- Distribute one group's binary reply over its regions, advancing
`offset` by each region's size. -/
def applyRegions (bin : List Nat) :
    List (Nat × Nat) → Nat → Buffers → Buffers
  | [], _, mrsp => mrsp
  | (j, sz) :: rest, offset, mrsp =>
    applyRegions bin rest (offset + sz)
      (fun i => if i = j then copyRegion (mrsp j) bin offset sz else mrsp i)

/-- Process the groups in `memTypes` order against the replies read
back in the same order. -/
def applyGroups :
    List (List (Nat × Nat)) → List (List Nat) → Buffers → Buffers
  | [], _, mrsp => mrsp
  | _ :: _, [], mrsp => mrsp
  | g :: gs, bin :: bins, mrsp => applyGroups gs bins (applyRegions bin g 0 mrsp)

/-- One emunwa memory read request (the fields `MultiReadMemory` uses). -/
structure NwaReadRequest where
  requestAddress : AddressTuple
  size : Nat

/-- The response data buffers of a successful `MultiReadMemory` call,
given the memory-type assignment and one binary reply per group. -/
def multiReadMemoryData (memTypeFor : AddressTuple → String)
    (reads : List NwaReadRequest) (replies : List (List Nat)) : Buffers :=
  let tagged := reads.map fun rr => (memTypeFor rr.requestAddress, rr.size)
  applyGroups
    ((memTypesOf (tagged.map Prod.fst)).map (fun t => groupOfAux t tagged 0))
    replies
    (fun j => List.replicate ((tagged.map Prod.snd).getD j 0) 0)

theorem copyGo_replicate (sz : Nat) (src : List Nat) (h : src.length ≤ sz) :
    copyGo (List.replicate sz 0) src = src ++ List.replicate (sz - src.length) 0 := by
  rw [copyGo, List.length_replicate, List.take_of_length_le h,
    Nat.min_eq_right h, List.drop_replicate]

theorem copyRegion_replicate (bin : List Nat) (off sz : Nat) :
    copyRegion (List.replicate sz 0) bin off sz =
      (bin.drop off).take sz ++
        List.replicate (sz - ((bin.drop off).take sz).length) 0 := by
  rw [copyRegion]
  by_cases h1 : off ≥ bin.length
  · rw [if_pos h1, List.drop_eq_nil_of_le h1]
    simp
  · rw [if_neg h1]
    have hd : (bin.drop off).length = bin.length - off := List.length_drop off bin
    by_cases h2 : sz > bin.length - off
    · rw [if_pos h2]
      have hsrc : ((bin.drop off).take (bin.length - off)) = bin.drop off := by
        rw [List.take_of_length_le (le_of_eq hd)]
      rw [hsrc, copyGo_replicate sz _ (by omega)]
      have htk : (bin.drop off).take sz = bin.drop off :=
        List.take_of_length_le (by omega)
      rw [htk]
    · rw [if_neg h2]
      have hlen : ((bin.drop off).take sz).length = sz := by
        rw [List.length_take]
        omega
      rw [copyGo_replicate sz _ (le_of_eq hlen)]

theorem applyRegions_not_mem (bin : List Nat) :
    ∀ (regions : List (Nat × Nat)) (off : Nat) (mrsp : Buffers) (j : Nat),
      (∀ x ∈ regions, x.1 ≠ j) →
      applyRegions bin regions off mrsp j = mrsp j := by
  intro regions
  induction regions with
  | nil => intro off mrsp j _; rfl
  | cons q rest ih =>
    obtain ⟨i, sz⟩ := q
    intro off mrsp j h
    rw [applyRegions]
    rw [ih (off + sz) _ j (fun x hx => h x (List.mem_cons_of_mem _ hx))]
    have hij : i ≠ j := h (i, sz) (List.mem_cons_self _ _)
    show (if j = i then copyRegion (mrsp i) bin off sz else mrsp j) = mrsp j
    rw [if_neg (fun hji => hij hji.symm)]

theorem applyRegions_at (bin : List Nat) :
    ∀ (pre : List (Nat × Nat)) (j sz : Nat) (post : List (Nat × Nat))
      (off : Nat) (mrsp : Buffers),
      (∀ x ∈ pre, x.1 ≠ j) → (∀ x ∈ post, x.1 ≠ j) →
      applyRegions bin (pre ++ (j, sz) :: post) off mrsp j =
        copyRegion (mrsp j) bin (off + (pre.map Prod.snd).sum) sz := by
  intro pre
  induction pre with
  | nil =>
    intro j sz post off mrsp _ hpost
    rw [List.nil_append, applyRegions]
    rw [applyRegions_not_mem bin post (off + sz) _ j hpost]
    simp
  | cons q pre' ih =>
    obtain ⟨i, szi⟩ := q
    intro j sz post off mrsp hpre hpost
    have hij : i ≠ j := hpre (i, szi) (List.mem_cons_self _ _)
    rw [List.cons_append, applyRegions]
    rw [ih j sz post (off + szi) _
      (fun x hx => hpre x (List.mem_cons_of_mem _ hx)) hpost]
    rw [if_neg (fun hji => hij hji.symm)]
    have harith : off + szi + (List.map Prod.snd pre').sum
        = off + (List.map Prod.snd ((i, szi) :: pre')).sum := by
      simp only [List.map_cons, List.sum_cons]
      omega
    rw [harith]

theorem applyGroups_not_mem :
    ∀ (gs : List (List (Nat × Nat))) (bins : List (List Nat))
      (mrsp : Buffers) (j : Nat),
      (∀ g ∈ gs, ∀ x ∈ g, x.1 ≠ j) →
      applyGroups gs bins mrsp j = mrsp j := by
  intro gs
  induction gs with
  | nil => intro bins mrsp j _; rfl
  | cons g gs' ih =>
    intro bins mrsp j h
    rcases bins with _ | ⟨bin, bins'⟩
    · rfl
    · rw [applyGroups]
      rw [ih bins' _ j (fun g' hg' => h g' (List.mem_cons_of_mem _ hg'))]
      exact applyRegions_not_mem bin g 0 mrsp j
        (h g (List.mem_cons_self _ _))

theorem applyGroups_at :
    ∀ (gs : List (List (Nat × Nat))) (bins : List (List Nat)) (k : Nat)
      (mrsp : Buffers) (j sz : Nat) (pre post : List (Nat × Nat)),
      k < gs.length → k < bins.length →
      (∀ k', k' < gs.length → k' ≠ k → ∀ x ∈ gs.getD k' [], x.1 ≠ j) →
      gs.getD k [] = pre ++ (j, sz) :: post →
      (∀ x ∈ pre, x.1 ≠ j) → (∀ x ∈ post, x.1 ≠ j) →
      applyGroups gs bins mrsp j =
        copyRegion (mrsp j) (bins.getD k []) ((pre.map Prod.snd).sum) sz := by
  intro gs
  induction gs with
  | nil =>
    intro bins k mrsp j sz pre post hk
    exact absurd hk (by simp)
  | cons g gs' ih =>
    intro bins k mrsp j sz pre post hk hkb hothers hdec hpre hpost
    rcases bins with _ | ⟨bin, bins'⟩
    · exact absurd hkb (by simp)
    · rw [applyGroups]
      rcases k with _ | k''
      · have hg : g = pre ++ (j, sz) :: post := by
          simpa using hdec
        have hrest : ∀ g' ∈ gs', ∀ x ∈ g', x.1 ≠ j := by
          intro g' hg' x hx
          obtain ⟨k', hk', hget⟩ := List.getElem_of_mem hg'
          have : gs'[k'] = (g :: gs').getD (k' + 1) [] := by
            rw [List.getD_cons_succ, List.getD_eq_getElem _ _ hk']
          exact hothers (k' + 1) (by simpa using Nat.succ_lt_succ hk')
            (Nat.succ_ne_zero k') x (by rw [← this, hget]; exact hx)
        rw [applyGroups_not_mem gs' bins' _ j hrest, hg,
          applyRegions_at bin pre j sz post 0 mrsp hpre hpost]
        simp
      · have hgj : ∀ x ∈ g, x.1 ≠ j := by
          intro x hx
          exact hothers 0 (by simp) (by omega) x (by simpa using hx)
        have hmj : applyRegions bin g 0 mrsp j = mrsp j :=
          applyRegions_not_mem bin g 0 mrsp j hgj
        have := ih bins' k'' (applyRegions bin g 0 mrsp) j sz pre post
          (by simpa using Nat.lt_of_succ_lt_succ hk)
          (by simpa using Nat.lt_of_succ_lt_succ hkb)
          (fun k' hk' hne x hx => hothers (k' + 1)
            (by simpa using Nat.succ_lt_succ hk')
            (fun he => hne (Nat.succ_injective he)) x
            (by rwa [List.getD_cons_succ]))
          (by rwa [List.getD_cons_succ] at hdec) hpre hpost
        rw [this, hmj, List.getD_cons_succ]

theorem groupOfAux_decomp (t : String) :
    ∀ (l : List (String × Nat)) (j i0 : Nat), j < l.length →
      (l.getD j ("", 0)).1 = t →
      groupOfAux t l i0 =
        groupOfAux t (l.take j) i0 ++
          (i0 + j, (l.getD j ("", 0)).2) ::
            groupOfAux t (l.drop (j + 1)) (i0 + j + 1) := by
  intro l
  induction l with
  | nil =>
    intro j i0 hj
    exact absurd hj (by simp)
  | cons q rest ih =>
    obtain ⟨ty, sz⟩ := q
    intro j i0 hj ht
    rcases j with _ | j'
    · simp only [List.getD_cons_zero] at ht ⊢
      simp [groupOfAux, ht]
    · have hj' : j' < rest.length := by
        simpa using Nat.lt_of_succ_lt_succ hj
      have ht' : (rest.getD j' ("", 0)).1 = t := by
        simpa [List.getD_cons_succ] using ht
      have harith1 : i0 + (j' + 1) = i0 + 1 + j' := by omega
      rw [List.take_succ_cons, List.drop_succ_cons, List.getD_cons_succ,
        harith1]
      by_cases hty : ty = t
      · simp only [groupOfAux, if_pos hty]
        rw [ih j' (i0 + 1) hj' ht', List.cons_append]
      · simp only [groupOfAux, if_neg hty]
        rw [ih j' (i0 + 1) hj' ht']

theorem groupOfAux_bounds (t : String) :
    ∀ (l : List (String × Nat)) (i0 : Nat), ∀ x ∈ groupOfAux t l i0,
      i0 ≤ x.1 ∧ x.1 < i0 + l.length := by
  intro l
  induction l with
  | nil =>
    intro i0 x hx
    simp [groupOfAux] at hx
  | cons q rest ih =>
    obtain ⟨ty, sz⟩ := q
    intro i0 x hx
    rw [groupOfAux] at hx
    simp only [List.length_cons]
    by_cases hty : ty = t
    · rw [if_pos hty] at hx
      rcases List.mem_cons.mp hx with hx | hx
      · subst hx
        constructor <;> simp
      · obtain ⟨h1, h2⟩ := ih (i0 + 1) x hx
        exact ⟨by omega, by omega⟩
    · rw [if_neg hty] at hx
      obtain ⟨h1, h2⟩ := ih (i0 + 1) x hx
      exact ⟨by omega, by omega⟩

theorem groupOfAux_mem_type (t : String) :
    ∀ (l : List (String × Nat)) (i0 : Nat), ∀ x ∈ groupOfAux t l i0,
      (l.getD (x.1 - i0) ("", 0)).1 = t := by
  intro l
  induction l with
  | nil =>
    intro i0 x hx
    simp [groupOfAux] at hx
  | cons q rest ih =>
    obtain ⟨ty, sz⟩ := q
    intro i0 x hx
    rw [groupOfAux] at hx
    by_cases hty : ty = t
    · rw [if_pos hty] at hx
      rcases List.mem_cons.mp hx with hx | hx
      · subst hx
        simpa using hty
      · have hb := (groupOfAux_bounds t rest (i0 + 1) x hx).1
        have hxi : x.1 - i0 = (x.1 - (i0 + 1)) + 1 := by omega
        rw [hxi, List.getD_cons_succ]
        exact ih (i0 + 1) x hx
    · rw [if_neg hty] at hx
      have hb := (groupOfAux_bounds t rest (i0 + 1) x hx).1
      have hxi : x.1 - i0 = (x.1 - (i0 + 1)) + 1 := by omega
      rw [hxi, List.getD_cons_succ]
      exact ih (i0 + 1) x hx

theorem groupOfAux_sizes (t : String) :
    ∀ (l : List (String × Nat)) (i0 : Nat),
      (groupOfAux t l i0).map Prod.snd =
        (l.filter (fun p => p.1 = t)).map Prod.snd := by
  intro l
  induction l with
  | nil => intro i0; rfl
  | cons q rest ih =>
    obtain ⟨ty, sz⟩ := q
    intro i0
    by_cases hty : ty = t
    · simp [groupOfAux, List.filter_cons, hty, ih (i0 + 1)]
    · simp [groupOfAux, List.filter_cons, hty, ih (i0 + 1)]

theorem memTypesOf_mem :
    ∀ (ts acc : List String) (t : String), t ∈ acc ∨ t ∈ ts →
      t ∈ ts.foldl (fun acc t => if t ∈ acc then acc else acc ++ [t]) acc := by
  intro ts
  induction ts with
  | nil =>
    intro acc t ht
    rcases ht with ht | ht
    · exact ht
    · cases ht
  | cons u ts' ih =>
    intro acc t ht
    rw [List.foldl_cons]
    apply ih
    rcases ht with ht | ht
    · left
      by_cases hu : u ∈ acc
      · rwa [if_pos hu]
      · rw [if_neg hu]
        exact List.mem_append_left _ ht
    · rcases List.mem_cons.mp ht with ht | ht
      · subst ht
        left
        by_cases hu : t ∈ acc
        · rwa [if_pos hu]
        · rw [if_neg hu]
          exact List.mem_append_right _ (List.mem_singleton_self t)
      · right
        exact ht

theorem memTypesOf_nodup :
    ∀ (ts acc : List String), acc.Nodup →
      (ts.foldl (fun acc t => if t ∈ acc then acc else acc ++ [t]) acc).Nodup := by
  intro ts
  induction ts with
  | nil => intro acc h; exact h
  | cons u ts' ih =>
    intro acc h
    rw [List.foldl_cons]
    apply ih
    by_cases hu : u ∈ acc
    · rwa [if_pos hu]
    · rw [if_neg hu]
      simp [List.nodup_append, h, hu]

theorem multiReadMemory_aux (tagged : List (String × Nat))
    (replies : List (List Nat)) (j : Nat) (hjt : j < tagged.length)
    (hrep : replies.length = (memTypesOf (tagged.map Prod.fst)).length) :
    applyGroups
        ((memTypesOf (tagged.map Prod.fst)).map (fun t' => groupOfAux t' tagged 0))
        replies (fun j' => List.replicate ((tagged.map Prod.snd).getD j' 0) 0) j =
      ((replies.getD
          ((memTypesOf (tagged.map Prod.fst)).indexOf (tagged.getD j ("", 0)).1)
          []).drop
          ((((tagged.take j).filter
              (fun p => p.1 = (tagged.getD j ("", 0)).1)).map Prod.snd).sum)).take
        (tagged.getD j ("", 0)).2 ++
      List.replicate ((tagged.getD j ("", 0)).2 -
        (((replies.getD
            ((memTypesOf (tagged.map Prod.fst)).indexOf (tagged.getD j ("", 0)).1)
            []).drop
            ((((tagged.take j).filter
                (fun p => p.1 = (tagged.getD j ("", 0)).1)).map Prod.snd).sum)).take
          (tagged.getD j ("", 0)).2).length) 0 := by
  have htmem : (tagged.getD j ("", 0)).1 ∈ memTypesOf (tagged.map Prod.fst) := by
    apply memTypesOf_mem (tagged.map Prod.fst) [] _ (Or.inr ?_)
    have hh : j < (tagged.map Prod.fst).length := by simpa using hjt
    have : (tagged.map Prod.fst)[j] = (tagged.getD j ("", 0)).1 := by
      rw [List.getElem_map, List.getD_eq_getElem _ _ hjt]
    rw [← this]
    exact List.getElem_mem hh
  have hnodup : (memTypesOf (tagged.map Prod.fst)).Nodup :=
    memTypesOf_nodup _ [] List.nodup_nil
  have hk : (memTypesOf (tagged.map Prod.fst)).indexOf (tagged.getD j ("", 0)).1 <
      (memTypesOf (tagged.map Prod.fst)).length :=
    List.indexOf_lt_length.mpr htmem
  have hkt : (memTypesOf (tagged.map Prod.fst))[(memTypesOf
      (tagged.map Prod.fst)).indexOf (tagged.getD j ("", 0)).1] =
      (tagged.getD j ("", 0)).1 :=
    List.getElem_indexOf hk
  have hdec := groupOfAux_decomp (tagged.getD j ("", 0)).1 tagged j 0 hjt rfl
  rw [Nat.zero_add] at hdec
  have hpre : ∀ x ∈ groupOfAux (tagged.getD j ("", 0)).1 (tagged.take j) 0,
      x.1 ≠ j := by
    intro x hx
    have hb := (groupOfAux_bounds _ (tagged.take j) 0 x hx).2
    have hlen : (tagged.take j).length = j := by
      rw [List.length_take]
      omega
    omega
  have hpost : ∀ x ∈ groupOfAux (tagged.getD j ("", 0)).1
      (tagged.drop (j + 1)) (j + 1), x.1 ≠ j := by
    intro x hx
    have hb := (groupOfAux_bounds _ (tagged.drop (j + 1)) (j + 1) x hx).1
    omega
  have hgsk : ((memTypesOf (tagged.map Prod.fst)).map
      (fun t' => groupOfAux t' tagged 0)).getD
      ((memTypesOf (tagged.map Prod.fst)).indexOf (tagged.getD j ("", 0)).1) [] =
      groupOfAux (tagged.getD j ("", 0)).1 (tagged.take j) 0 ++
        (j, (tagged.getD j ("", 0)).2) ::
          groupOfAux (tagged.getD j ("", 0)).1 (tagged.drop (j + 1)) (j + 1) := by
    rw [List.getD_eq_getElem _ _ (by simpa using hk), List.getElem_map, hkt]
    exact hdec
  have hothers : ∀ k', k' < ((memTypesOf (tagged.map Prod.fst)).map
      (fun t' => groupOfAux t' tagged 0)).length →
      k' ≠ (memTypesOf (tagged.map Prod.fst)).indexOf (tagged.getD j ("", 0)).1 →
      ∀ x ∈ ((memTypesOf (tagged.map Prod.fst)).map
        (fun t' => groupOfAux t' tagged 0)).getD k' [], x.1 ≠ j := by
    intro k' hk' hne x hx hxj
    have hk'len : k' < (memTypesOf (tagged.map Prod.fst)).length := by
      simpa using hk'
    rw [List.getD_eq_getElem _ _ hk', List.getElem_map] at hx
    have hty' := groupOfAux_mem_type _ tagged 0 x hx
    rw [Nat.sub_zero, hxj] at hty'
    have heq : (memTypesOf (tagged.map Prod.fst))[k'] =
        (memTypesOf (tagged.map Prod.fst))[(memTypesOf
          (tagged.map Prod.fst)).indexOf (tagged.getD j ("", 0)).1] := by
      rw [hkt]
      exact hty'.symm
    exact hne (hnodup.getElem_inj_iff.mp heq)
  have hkrep : (memTypesOf (tagged.map Prod.fst)).indexOf
      (tagged.getD j ("", 0)).1 < replies.length := by
    rw [hrep]
    exact hk
  have happ := applyGroups_at
    ((memTypesOf (tagged.map Prod.fst)).map (fun t' => groupOfAux t' tagged 0))
    replies
    ((memTypesOf (tagged.map Prod.fst)).indexOf (tagged.getD j ("", 0)).1)
    (fun j' => List.replicate ((tagged.map Prod.snd).getD j' 0) 0)
    j (tagged.getD j ("", 0)).2
    (groupOfAux (tagged.getD j ("", 0)).1 (tagged.take j) 0)
    (groupOfAux (tagged.getD j ("", 0)).1 (tagged.drop (j + 1)) (j + 1))
    (by simpa using hk) hkrep hothers hgsk hpre hpost
  have hinit : (tagged.map Prod.snd).getD j 0 = (tagged.getD j ("", 0)).2 := by
    have hh : j < (tagged.map Prod.snd).length := by simpa using hjt
    rw [List.getD_eq_getElem _ _ hh, List.getElem_map,
      List.getD_eq_getElem _ _ hjt]
  have hsum : ((groupOfAux (tagged.getD j ("", 0)).1
      (tagged.take j) 0).map Prod.snd).sum =
      ((((tagged.take j).filter
        (fun p => p.1 = (tagged.getD j ("", 0)).1)).map Prod.snd).sum) := by
    rw [groupOfAux_sizes]
  rw [happ]
  show copyRegion (List.replicate ((tagged.map Prod.snd).getD j 0) 0) _ _ _ = _
  rw [hinit, copyRegion_replicate, hsum]

/-- What the claim says a successful `MultiReadMemory` leaves in
read `j`'s buffer, stated from the spec for comparison with
`multiReadMemoryData`: the bytes of its memory-type group's binary
reply at the read's position in request order (after the sizes of the
earlier reads of the same type), truncated at the reply's end, with the
remaining bytes of the `Size`-byte buffer zero. -/
def claimedReadData (memTypeFor : AddressTuple → String)
    (reads : List NwaReadRequest) (replies : List (List Nat)) (j : Nat) :
    List Nat :=
  let tagged := reads.map fun rr => (memTypeFor rr.requestAddress, rr.size)
  let t := (tagged.getD j ("", 0)).1
  let sz := (tagged.getD j ("", 0)).2
  let bin := replies.getD ((memTypesOf (tagged.map Prod.fst)).indexOf t) []
  let off := (((tagged.take j).filter (fun p => p.1 = t)).map Prod.snd).sum
  (bin.drop off).take sz ++
    List.replicate (sz - ((bin.drop off).take sz).length) 0

/-- C6: for every successful emunwa `MultiReadMemory` call, read `j`'s
response buffer holds exactly `reads[j].Size` bytes, and its contents
are the group reply's bytes at the read's position in request order,
with the short remainder zero, as described by `claimedReadData` —
for every memory-type assignment, request list and reply list (one
binary reply per memory-type group). -/
theorem multiReadMemory_buffer_semantics
    (memTypeFor : AddressTuple → String) (reads : List NwaReadRequest)
    (replies : List (List Nat)) (j : Nat) (hj : j < reads.length)
    (hrep : replies.length = (memTypesOf ((reads.map fun rr =>
      (memTypeFor rr.requestAddress, rr.size)).map Prod.fst)).length) :
    multiReadMemoryData memTypeFor reads replies j =
      claimedReadData memTypeFor reads replies j ∧
    (multiReadMemoryData memTypeFor reads replies j).length =
      (reads.getD j ⟨⟨0, .raw, .unknown⟩, 0⟩).size := by
  have haux := multiReadMemory_aux
    (reads.map fun rr => (memTypeFor rr.requestAddress, rr.size))
    replies j (by simpa using hj) hrep
  have hmain : multiReadMemoryData memTypeFor reads replies j =
      claimedReadData memTypeFor reads replies j := by
    simp only [multiReadMemoryData, claimedReadData]
    exact haux
  refine ⟨hmain, ?_⟩
  rw [hmain]
  have hsz : ((reads.map fun rr =>
      (memTypeFor rr.requestAddress, rr.size)).getD j ("", 0)).2 =
      (reads.getD j ⟨⟨0, .raw, .unknown⟩, 0⟩).size := by
    have hh : j < (reads.map fun rr =>
        (memTypeFor rr.requestAddress, rr.size)).length := by simpa using hj
    rw [List.getD_eq_getElem _ _ hh, List.getElem_map,
      List.getD_eq_getElem _ _ hj]
  simp only [claimedReadData]
  rw [List.length_append, List.length_replicate, ← hsz]
  have hle : (((replies.getD
      ((memTypesOf ((reads.map fun rr =>
        (memTypeFor rr.requestAddress, rr.size)).map Prod.fst)).indexOf
        (((reads.map fun rr =>
          (memTypeFor rr.requestAddress, rr.size)).getD j ("", 0)).1)) []).drop
      (((((reads.map fun rr =>
        (memTypeFor rr.requestAddress, rr.size)).take j).filter
        (fun p => p.1 = ((reads.map fun rr =>
          (memTypeFor rr.requestAddress, rr.size)).getD j ("", 0)).1)).map
        Prod.snd).sum)).take
      (((reads.map fun rr =>
        (memTypeFor rr.requestAddress, rr.size)).getD j ("", 0)).2)).length ≤
      ((reads.map fun rr =>
        (memTypeFor rr.requestAddress, rr.size)).getD j ("", 0)).2 := by
    rw [List.length_take]
    omega
  omega

/-- Witness for C6 at a concrete call: two 4-byte reads of the same
memory type whose group reply holds only 6 bytes — read 0 gets the
first 4 reply bytes, read 1 gets the remaining 2 bytes and two zeros,
and both buffers have exactly their requested sizes. -/
theorem multiReadMemory_buffer_semantics_witness :
    multiReadMemoryData (fun _ => "WRAM")
      [⟨⟨0, .fxPakPro, .unknown⟩, 4⟩, ⟨⟨16, .fxPakPro, .unknown⟩, 4⟩]
      [[1, 2, 3, 4, 5, 6]] 1 = [5, 6, 0, 0] ∧
    (multiReadMemoryData (fun _ => "WRAM")
      [⟨⟨0, .fxPakPro, .unknown⟩, 4⟩, ⟨⟨16, .fxPakPro, .unknown⟩, 4⟩]
      [[1, 2, 3, 4, 5, 6]] 1).length = 4 := by
  have h := multiReadMemory_buffer_semantics (fun _ => "WRAM")
    [⟨⟨0, .fxPakPro, .unknown⟩, 4⟩, ⟨⟨16, .fxPakPro, .unknown⟩, 4⟩]
    [[1, 2, 3, 4, 5, 6]] 1 (by decide) (by decide)
  constructor
  · rw [h.1]
    decide
  · exact h.2

/-! ## emunwa domain discovery and `MemoryDomains`
(client.go lines 553–725)

`determineDomainMapping` returns immediately when `currentDomains` is
cached; otherwise it fetches `(CoreName, CoreVersion, CorePlatform)`
through `FetchFields`, matches the first core config whose regexes all
apply, resolves the platform, issues `CORE_MEMORIES`, and builds the
domain list.  `MemoryDomains` first runs the invalidation assignment
`c.currentDomains, c.currentPlatform, c.currentDomains = nil, nil, nil`
— which clears `currentDomains` (twice) and `currentPlatform` but not
`currentCore` — and then calls `determineDomainMapping`.  Regex
matching is kept abstract as boolean predicates; `strings.TrimSpace`
and `strings.ToLower` are modelled on the ASCII range, which covers
every name the claims touch. -/

/-- `platforms.DomainConf`. -/
structure DomainConf where
  name : List Char
  size : Nat
deriving DecidableEq, Repr

/-- `platforms.Domain` (embedded `DomainConf` plus status flags). -/
structure PlatDomain where
  conf : DomainConf
  isExposed : Bool
  isCoreSpecific : Bool
  isReadable : Bool
  isWriteable : Bool
deriving DecidableEq, Repr

/-- `CoreConfig.Matches`: the core-name regex and the optional
version/platform regexes, abstracted to predicates. -/
structure CoreMatches where
  coreNameRegex : List Char → Bool
  coreVersionRegex : Option (List Char → Bool)
  corePlatformRegex : Option (List Char → Bool)

/-- `CoreConfig.Define`. -/
structure CoreDefine where
  platform : List Char
  coreToSNIMapping : List (List Char × List Char)
  sniToCoreMapping : List (List Char × List Char)

/-- `CoreConfig`. -/
structure CoreConfig where
  name : List Char
  coreMatches : CoreMatches
  define : CoreDefine

/-- `platforms.PlatformConf` (the fields the discovery uses). -/
structure PlatformConf where
  domains : List DomainConf
  domainsByName : List (List Char × DomainConf)

/-- The process-wide platforms configuration. -/
structure PlatformsConfig where
  platformsByName : List (List Char × PlatformConf)

/-- Go map lookup over an association list. -/
def assocGet {α : Type} (m : List (List Char × α)) (k : List Char) : Option α :=
  (m.find? (fun p => p.1 = k)).map (fun p => p.2)

/-- Whitespace for `strings.TrimSpace` (ASCII range). -/
def isGoSpace (c : Char) : Bool :=
  c = ' ' ∨ c = '\t' ∨ c = '\n' ∨ c = (Char.ofNat 11) ∨ c = (Char.ofNat 12) ∨ c = '\r'

/-- `clean` = `strings.TrimSpace`. -/
def clean (s : List Char) : List Char :=
  ((s.dropWhile isGoSpace).reverse.dropWhile isGoSpace).reverse

/-- ASCII lower-casing of one character. -/
def lowerChar (c : Char) : Char :=
  if 'A' ≤ c ∧ c ≤ 'Z' then Char.ofNat (c.toNat + 32) else c

/-- `cleanLower` = `strings.ToLower(strings.TrimSpace(s))`. -/
def cleanLower (s : List Char) : List Char :=
  (clean s).map lowerChar

/-- `strconv.ParseUint(s, 10, 64)`. -/
def parseUint64 (s : List Char) : Except Unit Nat :=
  if s = [] then .error ()
  else if s.all (fun c => '0' ≤ c ∧ c ≤ '9') then
    let n := s.foldl (fun acc c => acc * 10 + (c.toNat - 48)) 0
    if n < 2 ^ 64 then .ok n else .error ()
  else .error ()

/-- The core-config matching loop (lines 575–593): first config whose
name regex matches and whose optional version/platform regexes, when
present, also match. -/
def findCoreConfig (cores : List CoreConfig)
    (coreName coreVersion corePlatform : List Char) : Option CoreConfig :=
  cores.find? fun cc =>
    cc.coreMatches.coreNameRegex coreName &&
    (match cc.coreMatches.coreVersionRegex with
     | none => true
     | some r => r coreVersion) &&
    (match cc.coreMatches.corePlatformRegex with
     | none => true
     | some r => r corePlatform)

/-- Insert-or-replace into the name→index map standing for the Go
pointer map `currentDomainsMap`. -/
def mapInsertNat (m : List (List Char × Nat)) (k : List Char) (v : Nat) :
    List (List Char × Nat) :=
  if (m.find? (fun p => p.1 = k)).isSome then
    m.map (fun p => if p.1 = k then (k, v) else p)
  else m ++ [(k, v)]

/-- Lines 623–635: seed `currentDomains` with the platform's domains,
none exposed, and key each by its cleaned lower-case name (the map
holds indices into the list, standing for the source's pointers). -/
def buildPlatformDomains (pc : PlatformConf) :
    List PlatDomain × List (List Char × Nat) :=
  pc.domains.foldl
    (fun acc d =>
      (acc.1 ++ [⟨d, false, false, false, false⟩],
       mapInsertNat acc.2 (cleanLower d.name) acc.1.length))
    ([], [])

/-- Placeholder domain for out-of-range index lookups (never reached
from the discovery loop). -/
def pdDefault : PlatDomain := ⟨⟨[], 0⟩, false, false, false, false⟩

/-- Lines 637–691: apply one `CORE_MEMORIES` record — parse its size,
map the core memory name through `CoreToSNIMapping`, canonicalise via
the platform's `DomainsByName`, then mark the (existing or freshly
appended) domain exposed with the reported size and access flags. -/
def applyMemory (core : CoreConfig) (pc : PlatformConf)
    (st : List PlatDomain × List (List Char × Nat)) (m : Item) :
    Except Unit (List PlatDomain × List (List Char × Nat)) :=
  let coreMemName := cleanLower (itemGet m "name".data)
  let coreMemSize := cleanLower (itemGet m "size".data)
  let coreMemAccess := cleanLower (itemGet m "access".data)
  match parseUint64 coreMemSize with
  | .error _ => .error ()
  | .ok sizeN =>
    match assocGet core.define.coreToSNIMapping coreMemName with
    | none => .error ()
    | some sniName0 =>
      let sniName :=
        match assocGet pc.domainsByName (cleanLower sniName0) with
        | some dc => dc.name
        | none => sniName0
      let keyq := cleanLower sniName
      let updAccess := fun (pd : PlatDomain) =>
        let pd1 : PlatDomain :=
          { pd with isExposed := true, conf := { pd.conf with size := sizeN } }
        if coreMemAccess = "rw".data then
          { pd1 with isReadable := true, isWriteable := true }
        else if coreMemAccess = "r".data then { pd1 with isReadable := true }
        else if coreMemAccess = "w".data then { pd1 with isWriteable := true }
        else pd1
      match assocGet st.2 keyq with
      | some idx => .ok (st.1.set idx (updAccess (st.1.getD idx pdDefault)), st.2)
      | none =>
        .ok (st.1 ++ [updAccess ⟨⟨sniName, sizeN⟩, true, true, false, false⟩],
          mapInsertNat st.2 keyq st.1.length)

/-- The triple produced by a successful discovery. -/
structure DiscoverResult where
  core : CoreConfig
  platform : PlatformConf
  domains : List PlatDomain

/-- The discovery body of `determineDomainMapping` (everything after
the cache guard, lines 558–696), returning the result together with the
NWA commands issued. -/
def discoverMapping (platConfig : Option PlatformsConfig)
    (cores : List CoreConfig) (oracle : String → Except Unit (List Item)) :
    Except Unit DiscoverResult × List String :=
  match platConfig with
  | none => (.error (), [])
  | some pc0 =>
    match fetchFields oracle [.coreName, .coreVersion, .corePlatform] with
    | (.error e, issued) => (.error e, issued)
    | (.ok values, issued) =>
      let coreName := clean (values.getD 0 [])
      let coreVersion := clean (values.getD 1 [])
      let corePlatform := clean (values.getD 2 [])
      match findCoreConfig cores coreName coreVersion corePlatform with
      | none => (.error (), issued)
      | some currentCore =>
        match assocGet pc0.platformsByName currentCore.define.platform with
        | none => (.error (), issued)
        | some currentPlatform =>
          match sendCommandWaitReply oracle "CORE_MEMORIES" with
          | .error e => (.error e, issued ++ ["CORE_MEMORIES"])
          | .ok memories =>
            match memories.foldlM (applyMemory currentCore currentPlatform)
                (buildPlatformDomains currentPlatform) with
            | .error e => (.error e, issued ++ ["CORE_MEMORIES"])
            | .ok st =>
              (.ok ⟨currentCore, currentPlatform, st.1⟩,
               issued ++ ["CORE_MEMORIES"])

/-- The cached triple of the emunwa client. -/
structure ClientCache where
  currentCore : Option CoreConfig
  currentPlatform : Option PlatformConf
  currentDomains : Option (List PlatDomain)

/-- `determineDomainMapping` (lines 553–697): return the cache when
`currentDomains` is non-nil; otherwise discover, and on success store
the fresh triple (on failure the fields are left untouched). -/
def determineDomainMapping (platConfig : Option PlatformsConfig)
    (cores : List CoreConfig) (oracle : String → Except Unit (List Item))
    (cache : ClientCache) : Except Unit Unit × ClientCache × List String :=
  match cache.currentDomains with
  | some _ => (.ok (), cache, [])
  | none =>
    match discoverMapping platConfig cores oracle with
    | (.error e, issued) => (.error e, cache, issued)
    | (.ok r, issued) =>
      (.ok (), ⟨some r.core, some r.platform, some r.domains⟩, issued)

/-- `sni.MemoryDomain` as filled in by emunwa `MemoryDomains`. -/
structure SniMemoryDomain where
  name : List Char
  isExposed : Bool
  isCoreSpecific : Bool
  size : Nat
  isReadable : Bool
  isWriteable : Bool
deriving DecidableEq, Repr

/-- `sni.MemoryDomainsResponse` (the fields emunwa fills in). -/
structure NwaMemoryDomainsResponse where
  uri : List Char
  coreName : List Char
  domains : List SniMemoryDomain
deriving DecidableEq, Repr

/-- The response projection loop of `MemoryDomains` (lines 713–722). -/
def projectDomains (ds : List PlatDomain) : List SniMemoryDomain :=
  ds.map fun d =>
    ⟨d.conf.name, d.isExposed, d.isCoreSpecific, d.conf.size,
     d.isReadable, d.isWriteable⟩

/-- emunwa `MemoryDomains` (lines 699–725): run the invalidation
assignment (`currentDomains` and `currentPlatform` to nil —
`currentCore` is not assigned), then `determineDomainMapping`, then
project the now-current triple into the response. -/
def memoryDomains (platConfig : Option PlatformsConfig)
    (cores : List CoreConfig) (oracle : String → Except Unit (List Item))
    (cache : ClientCache) (uri : List Char) :
    Except Unit NwaMemoryDomainsResponse × ClientCache × List String :=
  let cache1 : ClientCache := ⟨cache.currentCore, none, none⟩
  match determineDomainMapping platConfig cores oracle cache1 with
  | (.error e, cache2, issued) => (.error e, cache2, issued)
  | (.ok _, cache2, issued) =>
    match cache2.currentCore, cache2.currentDomains with
    | some core, some ds => (.ok ⟨uri, core.name, projectDomains ds⟩, cache2, issued)
    | _, _ => (.error (), cache2, issued)

/-- C3 (amended): every `MemoryDomains` call clears the cached domains
and platform and performs a full rediscovery regardless of any existing
cache — the result is independent of the cached platform/domains, the
issued commands are exactly those of a fresh discovery (starting with
`CORE_CURRENT_INFO` whenever a platforms configuration exists, then
`CORE_MEMORIES`), and on success the returned list is the freshly
discovered one with the whole triple replaced.  The cached core,
however, is NOT cleared by the invalidation assignment: after a failed
rediscovery it still holds its previous value, while platform and
domains are nil. -/
theorem memoryDomains_rediscovers (platConfig : Option PlatformsConfig)
    (cores : List CoreConfig) (oracle : String → Except Unit (List Item))
    (cache : ClientCache) (uri : List Char) :
    (∀ p d, memoryDomains platConfig cores oracle ⟨cache.currentCore, p, d⟩ uri =
      memoryDomains platConfig cores oracle cache uri) ∧
    ((memoryDomains platConfig cores oracle cache uri).2.2 =
      (discoverMapping platConfig cores oracle).2) ∧
    (platConfig ≠ none →
      "CORE_CURRENT_INFO" ∈ (memoryDomains platConfig cores oracle cache uri).2.2) ∧
    (∀ r : DiscoverResult, (discoverMapping platConfig cores oracle).1 = .ok r →
      memoryDomains platConfig cores oracle cache uri =
        (.ok ⟨uri, r.core.name, projectDomains r.domains⟩,
         ⟨some r.core, some r.platform, some r.domains⟩,
         (discoverMapping platConfig cores oracle).2)) ∧
    (∀ e : Unit, (discoverMapping platConfig cores oracle).1 = .error e →
      (memoryDomains platConfig cores oracle cache uri).2.1 =
        ⟨cache.currentCore, none, none⟩) := by
  refine ⟨fun p d => rfl, ?_, ?_, ?_, ?_⟩
  · rw [memoryDomains, determineDomainMapping]
    rcases h : discoverMapping platConfig cores oracle with ⟨res, issued⟩
    rcases res with e | r <;> simp
  · intro hpc
    rcases platConfig with _ | pc0
    · exact absurd rfl hpc
    · have h2 : (memoryDomains (some pc0) cores oracle cache uri).2.2 =
          (discoverMapping (some pc0) cores oracle).2 := by
        rw [memoryDomains, determineDomainMapping]
        rcases discoverMapping (some pc0) cores oracle with ⟨res, issued⟩
        rcases res with e | r <;> simp
      rw [h2, discoverMapping]
      rcases hf : fetchFields oracle [.coreName, .coreVersion, .corePlatform]
        with ⟨fres, fissued⟩
      have hiss : fissued = ["CORE_CURRENT_INFO"] := by
        have h0 : (fetchFields oracle [.coreName, .coreVersion, .corePlatform]).2 =
            ["CORE_CURRENT_INFO"] := by
          rw [fetchFields]
          rcases sendCommandWaitReply oracle "CORE_CURRENT_INFO" with e | items <;> rfl
        rw [hf] at h0
        exact h0
      subst hiss
      rcases fres with e | values
      · simp
      · simp only
        split
        · simp
        · split
          · simp
          · split <;> first
              | (split <;> simp)
              | simp
  · intro r hr
    rw [memoryDomains, determineDomainMapping]
    rcases h : discoverMapping platConfig cores oracle with ⟨res, issued⟩
    rw [h] at hr
    simp only at hr
    subst hr
    rfl
  · intro e he
    rw [memoryDomains, determineDomainMapping]
    rcases h : discoverMapping platConfig cores oracle with ⟨res, issued⟩
    rw [h] at he
    simp only at he
    subst he
    rfl

/-- A one-platform, one-core demo configuration for the concrete C3
runs: platform `snes` exposing a single `WRAM` domain conf. -/
def demoPlat : PlatformConf :=
  ⟨[⟨"WRAM".data, 0⟩], [("wram".data, ⟨"WRAM".data, 0⟩)]⟩

/-- Demo core config matching any core, mapping `snes_wram` to `WRAM`. -/
def demoCore : CoreConfig :=
  ⟨"bsnes".data, ⟨fun _ => true, none, none⟩,
   ⟨"snes".data, [("snes_wram".data, "WRAM".data)],
    [("wram".data, "SNES_WRAM".data)]⟩⟩

/-- Demo platforms configuration. -/
def demoConfig : PlatformsConfig := ⟨[("snes".data, demoPlat)]⟩

/-- Demo oracle: a bsnes core exposing `SNES_WRAM` (128 KiB, rw). -/
def demoOracle : String → Except Unit (List Item) := fun cmd =>
  if cmd = "CORE_CURRENT_INFO" then
    .ok [[("name".data, "bsnes".data), ("version".data, "115".data),
      ("platform".data, "SNES".data)]]
  else if cmd = "CORE_MEMORIES" then
    .ok [[("name".data, "SNES_WRAM".data), ("size".data, "131072".data),
      ("access".data, "rw".data)]]
  else .error ()

/-- Witness for C3 (amended) at the demo configuration: starting from a
cache that already holds a (stale, empty) domain list, `MemoryDomains`
still issues `CORE_CURRENT_INFO` and `CORE_MEMORIES` and returns the
freshly discovered `WRAM` domain, storing the fresh triple. -/
theorem memoryDomains_rediscovers_witness :
    memoryDomains (some demoConfig) [demoCore] demoOracle
      ⟨none, none, some []⟩ "uri".data =
      (.ok ⟨"uri".data, "bsnes".data,
        [⟨"WRAM".data, true, false, 131072, true, true⟩]⟩,
       ⟨some demoCore, some demoPlat,
        some [⟨⟨"WRAM".data, 131072⟩, true, false, true, true⟩]⟩,
       ["CORE_CURRENT_INFO", "CORE_MEMORIES"]) := by
  have h := (memoryDomains_rediscovers (some demoConfig) [demoCore] demoOracle
    ⟨none, none, some []⟩ "uri".data).2.2.2.1
    ⟨demoCore, demoPlat, [⟨⟨"WRAM".data, 131072⟩, true, false, true, true⟩]⟩
    rfl
  exact h

/-- C3 counterexample to the original claim: with a failing transport,
a `MemoryDomains` call on a cache holding core `demoCore` leaves
`currentCore` at its old value — the cached core member of the triple
is not invalidated (were the whole triple invalidated before
rediscovery, a failed rediscovery would leave it `none`). -/
theorem memoryDomains_core_not_invalidated :
    (memoryDomains (some demoConfig) [demoCore] (fun _ => .error ())
      ⟨some demoCore, some demoPlat, some []⟩ "uri".data).2.1.currentCore =
      some demoCore ∧
    (memoryDomains (some demoConfig) [demoCore] (fun _ => .error ())
      ⟨some demoCore, some demoPlat, some []⟩ "uri".data).2.1.currentPlatform =
      none ∧
    some demoCore ≠ (none : Option CoreConfig) := by
  refine ⟨rfl, rfl, ?_⟩
  simp

end Sni
